import Mathlib

/-!
# Verification of the Content Governance audit-indexing subsystem

Shallow embedding of the audit indexer found in `cg/audit_db.py`,
`cg/audit_indexer.py` and `cg/job_manager.py`.

Modelling conventions:
* SQLite tables become Lean lists of structure values; each store function
  of `audit_db.py` (which runs as a single transaction, `with con:`) becomes
  a pure function on the `Db` state.
* `INTEGER PRIMARY KEY` row ids are modelled by the counter `next_run_id`;
  well-formedness (`Db.WF`) states that all existing ids are below it and
  pairwise distinct, which is what SQLite guarantees.
* Wall-clock timestamps are opaque `String`s supplied by the caller and
  `REAL` durations are opaque `Option Nat` ticks: no claim computes with
  their values.
* `Path.resolve()` canonicalisation is not re-modelled: root paths are
  taken to be already canonical strings, so equal roots mean equal
  canonical paths (which is what `prepare_run`'s `root_path = ?` lookup
  compares).
-/

namespace Audit

/-- A row of the `scan_runs` table (`audit_db.py`, `SCHEMA`). -/
structure RunRow where
  run_id : Nat
  root_path : String
  queued_at : Option String
  started_at : Option String
  completed_at : Option String
  status : String
  total_files : Nat
  total_errors : Nat
  duration_seconds : Option Nat
  error_message : Option String
deriving Repr, DecidableEq

/-- A row of the `files` table (`audit_db.py`, `SCHEMA`).  The code always
supplies `file_name`, `subfolder` and `extension`, so they are `String`;
`created_at`, `modified_at` and `modified_by` are nullable. -/
structure FileRow where
  run_id : Nat
  path : String
  file_name : String
  subfolder : String
  extension : String
  created_at : Option String
  modified_at : Option String
  modified_by : Option String
deriving Repr, DecidableEq

/-- The SQLite database state: both tables plus the fresh-rowid counter. -/
structure Db where
  runs : List RunRow
  files : List FileRow
  next_run_id : Nat
deriving Repr, DecidableEq

/-- SQL `COALESCE(a, b)` restricted to two text arguments. -/
def coalesce : Option String → Option String → Option String
  | some v, _ => some v
  | none, old => old

/-- The per-row effect of `prepare_run`'s reset `UPDATE` on the run with
the matching id. -/
def resetRun (rid : Nat) (now : String) (r : RunRow) : RunRow :=
  if r.run_id == rid then
    { r with
      queued_at := some now
      started_at := none
      completed_at := none
      status := "queued"
      total_files := 0
      total_errors := 0
      duration_seconds := none
      error_message := none }
  else r

/-- The fresh run row inserted by `prepare_run` for an unseen root. -/
def newRun (rid : Nat) (root : String) (now : String) : RunRow :=
  { run_id := rid
    root_path := root
    queued_at := some now
    started_at := none
    completed_at := none
    status := "queued"
    total_files := 0
    total_errors := 0
    duration_seconds := none
    error_message := none }

/-- `prepare_run` (`audit_db.py:104`): look up the run by canonical root
path; if found, reset its timestamps/counters/status to `queued` and delete
its file rows; otherwise insert a fresh `queued` run.  Returns the run id
and the updated database (one transaction). -/
def prepare_run (db : Db) (root : String) (now : String) : Nat × Db :=
  match db.runs.find? (fun r => r.root_path == root) with
  | some row =>
      (row.run_id,
        { db with
          runs := db.runs.map (resetRun row.run_id now)
          files := db.files.filter fun f => f.run_id != row.run_id })
  | none =>
      (db.next_run_id,
        { db with
          runs := db.runs ++ [newRun db.next_run_id root now]
          next_run_id := db.next_run_id + 1 })

/-- The per-row effect of `mark_run_started`'s `UPDATE`. -/
def startRunRow (rid : Nat) (now : String) (r : RunRow) : RunRow :=
  if r.run_id == rid then { r with started_at := some now, status := "running" } else r

/-- `mark_run_started` (`audit_db.py:148`): set status to `running` and
record the start time; a no-op if no row has the id. -/
def mark_run_started (db : Db) (rid : Nat) (now : String) : Db :=
  { db with runs := db.runs.map (startRunRow rid now) }

/-- The per-row effect of `update_run_progress`'s `UPDATE`. -/
def progressRunRow (rid tf te : Nat) (r : RunRow) : RunRow :=
  if r.run_id == rid then { r with total_files := tf, total_errors := te } else r

/-- `update_run_progress` (`audit_db.py:167`): overwrite the running
counters. -/
def update_run_progress (db : Db) (rid : Nat) (tf te : Nat) : Db :=
  { db with runs := db.runs.map (progressRunRow rid tf te) }

/-- The per-row effect of `finalize_run`'s `UPDATE`. -/
def finishRunRow (rid tf te : Nat) (dur : Option Nat) (status : String)
    (msg : Option String) (now : String) (r : RunRow) : RunRow :=
  if r.run_id == rid then
    { r with
      completed_at := some now
      status := status
      total_files := tf
      total_errors := te
      duration_seconds := dur
      error_message := msg }
  else r

/-- `finalize_run` (`audit_db.py:187`): terminal write of completion time,
status, final counters, duration and error message. -/
def finalize_run (db : Db) (rid : Nat) (tf te : Nat) (dur : Option Nat)
    (status : String) (msg : Option String) (now : String) : Db :=
  { db with runs := db.runs.map (finishRunRow rid tf te dur status msg now) }

/-- The tuple shape handed to `insert_file_batch` by the crawler:
`(path, file_name, subfolder, extension, created_at, modified_at,
modified_by)`. -/
structure InRow where
  path : String
  file_name : String
  subfolder : String
  extension : String
  created_at : Option String
  modified_at : Option String
  modified_by : Option String
deriving Repr, DecidableEq

/-- The `DO UPDATE` arm of the upsert: `file_name`, `subfolder` and
`extension` are overwritten unconditionally while the three nullable
columns use `COALESCE(excluded.x, files.x)`. -/
def mergeRow (row : InRow) (f : FileRow) : FileRow :=
  { f with
    file_name := row.file_name
    subfolder := row.subfolder
    extension := row.extension
    created_at := coalesce row.created_at f.created_at
    modified_at := coalesce row.modified_at f.modified_at
    modified_by := coalesce row.modified_by f.modified_by }

/-- The plain-`INSERT` arm of the upsert. -/
def freshRow (rid : Nat) (row : InRow) : FileRow :=
  { run_id := rid
    path := row.path
    file_name := row.file_name
    subfolder := row.subfolder
    extension := row.extension
    created_at := row.created_at
    modified_at := row.modified_at
    modified_by := row.modified_by }

/-- One `INSERT ... ON CONFLICT(run_id, path) DO UPDATE` statement of
`insert_file_batch` (`audit_db.py:220`). -/
def upsertFile (db : Db) (rid : Nat) (row : InRow) : Db :=
  if db.files.any (fun f => f.run_id == rid && f.path == row.path) then
    { db with
      files := db.files.map fun f =>
        if f.run_id == rid && f.path == row.path then mergeRow row f else f }
  else
    { db with files := db.files ++ [freshRow rid row] }

/-- `insert_file_batch` (`audit_db.py:220`): `executemany` of the upsert
over the batch, in order, as one transaction. -/
def insert_file_batch (db : Db) (rid : Nat) (rows : List InRow) : Db :=
  rows.foldl (fun d r => upsertFile d rid r) db

/-! ## The query side: `fetch_page` and `_build_order_clause` -/

/-- `SortInstruction` (`audit_db.py:54`). -/
structure SortInstruction where
  column_id : String
  direction : String
deriving Repr, DecidableEq

/-- The `allowed_columns` set of `_build_order_clause` (`audit_db.py:362`). -/
def allowed_columns : List String :=
  ["file_name", "subfolder", "created_at", "modified_at", "modified_by", "extension"]

/-- Python's `str.lower()` as used on direction strings (`audit_db.py:374`):
character-wise lowering (ASCII for the `asc`/`desc`/`ASC`/`DESC` vocabulary
that reaches it). -/
def strToLower (s : String) : String := String.mk (s.data.map Char.toLower)

/-- `_build_order_clause` (`audit_db.py:361`), modelled as the list of
`(column, ascending?)` sort keys appearing in the generated `ORDER BY`
clause: the first three instructions are considered, unknown columns are
skipped, a direction whose lowercase form is not `"asc"` becomes
descending, and an empty result defaults to ascending `file_name`. -/
def build_order_clause (insns : List SortInstruction) : List (String × Bool) :=
  let parts := (insns.take 3).filterMap fun i =>
    if allowed_columns.contains i.column_id then
      some (i.column_id, strToLower i.direction == "asc")
    else none
  if parts.isEmpty then [("file_name", true)] else parts

/-- SQLite ASCII case folding: the `LIKE` operator folds only `A`–`Z` by
default (`case_sensitive_like` is off and the schema does not change it). -/
def asciiLower (c : Char) : Char :=
  if 'A' ≤ c ∧ c ≤ 'Z' then Char.ofNat (c.toNat + 32) else c

/-- SQLite `LIKE` pattern matching over characters: `%` matches any
sequence (equivalently, the rest of the pattern matches some suffix),
`_` matches any single character, and ordinary characters match up to
ASCII case. -/
def likeMatch : List Char → List Char → Bool
  | [], s => s.isEmpty
  | p :: ps, s =>
      if p = '%' then s.tails.any fun s2 => likeMatch ps s2
      else
        match s with
        | [] => false
        | c :: s' => (p == '_' || asciiLower p == asciiLower c) && likeMatch ps s'

/-- The `subfolder LIKE ?` filter of `fetch_page` (`audit_db.py:334`),
whose parameter is `f"%{subfolder_contains}%"`. -/
def likeContains (needle hay : String) : Bool :=
  likeMatch ('%' :: (needle.data ++ ['%'])) hay.data

/-- The `WHERE` clause of `fetch_page` (`audit_db.py:325`): always
`run_id = ?`; the extension list, when non-empty, contributes an
`extension IN (...)` exact-match test (Python `if extensions:` treats
`None` and `[]` alike, modelled as the empty list); the subfolder string,
when non-empty, contributes the `LIKE` substring test (Python
`if subfolder_contains:` treats `None` and `""` alike). -/
def rowMatches (rid : Nat) (exts : List String) (sub : String) (f : FileRow) : Bool :=
  f.run_id == rid &&
    (if exts.isEmpty then true else exts.contains f.extension) &&
    (if sub == "" then true else likeContains sub f.subfolder)

/-- The sort key a file row yields for one `ORDER BY` column; `NULL`s sort
below every text value in SQLite, modelled by `none`. -/
def sortKey (c : String) (f : FileRow) : Option String :=
  if c = "file_name" then some f.file_name
  else if c = "subfolder" then some f.subfolder
  else if c = "created_at" then f.created_at
  else if c = "modified_at" then f.modified_at
  else if c = "modified_by" then f.modified_by
  else if c = "extension" then some f.extension
  else none

/-- Strict comparison of sort keys: `NULL` below any value, text compared
by the (binary) lexicographic string order. -/
def keyLt : Option String → Option String → Prop
  | none, none => False
  | none, some _ => True
  | some _, none => False
  | some a, some b => a < b

/-- Direction-aware strict comparison: descending flips the order. -/
def dirLt : Bool → Option String → Option String → Prop
  | true, x, y => keyLt x y
  | false, x, y => keyLt y x

/-- The row ordering induced by an `ORDER BY` key list: lexicographic by
the keys, each ascending or descending. -/
def rowLe : List (String × Bool) → FileRow → FileRow → Prop
  | [], _, _ => True
  | (c, asc) :: rest, a, b =>
      dirLt asc (sortKey c a) (sortKey c b) ∨
        (sortKey c a = sortKey c b ∧ rowLe rest a b)

instance keyLt.instDecidable : ∀ x y, Decidable (keyLt x y)
  | none, none => isFalse (fun h => h)
  | none, some _ => isTrue trivial
  | some _, none => isFalse (fun h => h)
  | some a, some b => inferInstanceAs (Decidable (a < b))

instance dirLt.instDecidable : ∀ d x y, Decidable (dirLt d x y)
  | true, x, y => inferInstanceAs (Decidable (keyLt x y))
  | false, x, y => inferInstanceAs (Decidable (keyLt y x))

instance rowLe.instDecidable : ∀ keys (a b : FileRow), Decidable (rowLe keys a b)
  | [], _, _ => isTrue trivial
  | (c, asc) :: rest, a, b =>
      haveI : Decidable (rowLe rest a b) := rowLe.instDecidable rest a b
      inferInstanceAs (Decidable
        (dirLt asc (sortKey c a) (sortKey c b) ∨
          (sortKey c a = sortKey c b ∧ rowLe rest a b)))

/-- The rows of a run matching the filters (the `WHERE` clause). -/
def matching_rows (db : Db) (rid : Nat) (exts : List String) (sub : String) :
    List FileRow :=
  db.files.filter (rowMatches rid exts sub)

/-- The matching rows arranged in the `ORDER BY` order.  SQL leaves the
relative order of ties unspecified; the model fixes the stable insertion
sort as the engine's arrangement. -/
def sorted_rows (db : Db) (rid : Nat) (sorts : List SortInstruction)
    (exts : List String) (sub : String) : List FileRow :=
  List.insertionSort (rowLe (build_order_clause sorts)) (matching_rows db rid exts sub)

/-- `fetch_page` (`audit_db.py:314`): count the matching rows, then return
the page slice `LIMIT page_size OFFSET max(page_number, 0) * page_size`
of the ordered matching rows, together with the total.  `page_number` is
an `Int` because the Python caller may pass a negative page index. -/
def fetch_page (db : Db) (rid : Nat) (page_number : Int) (page_size : Nat)
    (sorts : List SortInstruction) (exts : List String) (sub : String) :
    List FileRow × Nat :=
  let offset := (max page_number 0).toNat * page_size
  (((sorted_rows db rid sorts exts sub).drop offset).take page_size,
    (matching_rows db rid exts sub).length)

/-! ## The crawler: `audit_indexer.py`

The filesystem is modelled as a tree of directories.  Each directory knows
whether enumerating it succeeds (`os.scandir` inside `os.walk`; with the
default `onerror=None`, a failing directory is skipped silently together
with its subtree).  Each file knows whether `stat()` succeeds; the code
treats "`created_ts is None and modified_ts is None`" (exactly the
stat-failure case, since `_timestamps` fills both or neither) as a per-file
error that is counted and skipped.  Symbolic links are not modelled because
the walk does not follow them (`followlinks=False`).

An unhandled exception during the walk (the `except` at
`audit_indexer.py:154` catches everything raised inside the `try`: database
errors, callback errors, ...) is modelled as a `fault` event that aborts
the event stream at the point it occurs. -/

/-- A regular file as seen by the walk.  `statOk` tells whether `stat()`
succeeds; when it does, both timestamps are available, and the best-effort
`owner` lookup may still independently be absent. -/
structure FileNode where
  name : String
  statOk : Bool
  created_at : String
  modified_at : String
  owner : Option String
deriving Repr, DecidableEq

/-- A directory tree: whether this directory can be enumerated, its regular
files, and its named subdirectories in listing order. -/
inductive DirTree where
  | node (readable : Bool) (files : List FileNode) (subdirs : List (String × DirTree))

mutual
/-- `os.walk(root)` restricted to what the crawler consumes: the files of
each reachable directory, top-down, tagged with the path segments of their
directory relative to the root.  A directory whose enumeration fails
contributes nothing (itself and its whole subtree are skipped). -/
def walkFiles : DirTree → List String → List (List String × FileNode)
  | .node readable fs subs, segs =>
      if readable then (fs.map fun f => (segs, f)) ++ walkSubs subs segs else []

/-- Walk the subdirectory list in order. -/
def walkSubs : List (String × DirTree) → List String → List (List String × FileNode)
  | [], _ => []
  | (n, t) :: rest, segs => walkFiles t (segs ++ [n]) ++ walkSubs rest segs
end

/-- Index of the last `'.'` in a list of characters, if any. -/
def lastDotIdx? (cs : List Char) : Option Nat :=
  (List.range cs.length).foldl
    (fun acc i => if cs.getD i ' ' == '.' then some i else acc) none

/-- `file_path.suffix.lower().lstrip(".")` (`audit_indexer.py:98`):
`pathlib`'s suffix is non-empty only when the last dot sits strictly inside
the name; lowering is ASCII (`Char.toLower`), and `lstrip(".")` drops the
leading dot. -/
def extOf (name : String) : String :=
  let cs := name.data
  match lastDotIdx? cs with
  | some i =>
      if 0 < i ∧ i + 1 < cs.length then
        String.mk (((cs.drop i).map Char.toLower).dropWhile (fun c => c == '.'))
      else ""
  | none => ""

/-- `_subfolder` (`audit_indexer.py:53`): the parent directory of a walked
file relative to the root, `/`-joined, with the root itself as `"/"`.  The
`ValueError` fallback of the source is unreachable here because every
walked path lies under the root. -/
def subfolderOf (segs : List String) : String :=
  if segs.isEmpty then "/" else String.intercalate "/" segs

/-- Absolute path of a walked file: root, relative segments, name. -/
def pathOf (root : String) (segs : List String) (name : String) : String :=
  String.intercalate "/" (root :: (segs ++ [name]))

/-- The metadata tuple the crawler builds for one stat-able file
(`audit_indexer.py:100`). -/
def rowOf (root : String) (segs : List String) (node : FileNode) : InRow :=
  { path := pathOf root segs node.name
    file_name := node.name
    subfolder := subfolderOf segs
    extension := extOf node.name
    created_at := if node.statOk then some node.created_at else none
    modified_at := if node.statOk then some node.modified_at else none
    modified_by := if node.statOk then node.owner else none }

/-- One event of a crawl: a file delivered by the walk, or an unhandled
exception raised at that point of the loop. -/
inductive WalkEvent where
  | file (segs : List String) (node : FileNode)
  | fault (msg : String)
deriving Repr, DecidableEq

/-- The fault-free event stream produced by actually walking a tree. -/
def treeEvents (t : DirTree) : List WalkEvent :=
  (walkFiles t []).map fun p => .file p.1 p.2

/-- One store transaction, as issued by the scheduler and the crawler. -/
inductive Prim where
  | prep (root : String) (now : String)
  | markStarted (rid : Nat) (now : String)
  | progress (rid : Nat) (tf te : Nat)
  | insertBatch (rid : Nat) (rows : List InRow)
  | finalize (rid : Nat) (tf te : Nat) (dur : Option Nat) (status : String)
      (msg : Option String) (now : String)
deriving Repr, DecidableEq

/-- Apply one store transaction to the database. -/
def applyPrim (db : Db) : Prim → Db
  | .prep root now => (prepare_run db root now).2
  | .markStarted rid now => mark_run_started db rid now
  | .progress rid tf te => update_run_progress db rid tf te
  | .insertBatch rid rows => insert_file_batch db rid rows
  | .finalize rid tf te dur status msg now => finalize_run db rid tf te dur status msg now

/-- Apply a sequence of store transactions, in order. -/
def applyPrims (db : Db) (ps : List Prim) : Db := ps.foldl applyPrim db

/-- The crawler's in-flight loop state: the pending batch, the files
flushed so far (`total_files`) and the per-file errors so far. -/
structure CrawlAcc where
  batch : List InRow
  total_files : Nat
  error_count : Nat
deriving Repr, DecidableEq

/-- The walk loop of `index_path` (`audit_indexer.py:89`): per file, a
stat failure increments `error_count` and skips the file; otherwise the
row joins the batch, and a full batch is flushed (`_flush_batch`: an
`insert_file_batch` transaction followed by an `update_run_progress`
transaction, plus the progress callback those values feed).  A fault stops
the loop, dropping the pending batch.  Returns the emitted transactions,
the final loop state, and the fault message if one occurred. -/
def crawlSteps (root : String) (rid : Nat) (bs : Nat) :
    CrawlAcc → List WalkEvent → List Prim × CrawlAcc × Option String
  | acc, [] => ([], acc, none)
  | acc, .fault msg :: _ => ([], acc, some msg)
  | acc, .file segs node :: rest =>
      if node.statOk then
        let batch' := acc.batch ++ [rowOf root segs node]
        if bs ≤ batch'.length then
          let flushed := acc.total_files + batch'.length
          let out := crawlSteps root rid bs ⟨[], flushed, acc.error_count⟩ rest
          (Prim.insertBatch rid batch' :: Prim.progress rid flushed acc.error_count :: out.1,
            out.2)
        else crawlSteps root rid bs ⟨batch', acc.total_files, acc.error_count⟩ rest
      else crawlSteps root rid bs ⟨acc.batch, acc.total_files, acc.error_count + 1⟩ rest

/-- Summary returned by a completed crawl (`IndexResult`,
`audit_indexer.py:26`). -/
structure IndexResult where
  run_id : Nat
  total_files : Nat
  error_count : Nat
  duration_seconds : Option Nat
deriving Repr, DecidableEq

/-- The store transactions and outcome of the validated part of
`index_path` (`audit_indexer.py:85`–`165`): mark the run started, run the
walk loop, flush the final pending batch, then finalize — `completed` with
the totals on success; on a fault, `failed` with the flushed total, the
errors so far plus one, and the exception message, after which the
exception is re-raised (the `Except.error`). -/
def index_prims (root : String) (rid : Nat) (bs : Nat) (events : List WalkEvent)
    (dur : Option Nat) (now : String) : List Prim × Except String IndexResult :=
  let s := crawlSteps root rid bs ⟨[], 0, 0⟩ events
  match s.2.2 with
  | some msg =>
      (Prim.markStarted rid now :: s.1 ++
        [Prim.finalize rid s.2.1.total_files (s.2.1.error_count + 1) dur "failed"
          (some msg) now],
        Except.error msg)
  | none =>
      let acc := s.2.1
      let flush : List Prim :=
        if acc.batch.isEmpty then []
        else [Prim.insertBatch rid acc.batch,
          Prim.progress rid (acc.total_files + acc.batch.length) acc.error_count]
      (Prim.markStarted rid now :: s.1 ++ flush ++
        [Prim.finalize rid (acc.total_files + acc.batch.length) acc.error_count dur
          "completed" none now],
        Except.ok ⟨rid, acc.total_files + acc.batch.length, acc.error_count, dur⟩)

/-- How `index_path` can fail: root validation (raised before touching the
store) or a re-raised walk fault (raised after the `failed` finalize). -/
inductive IndexError where
  | invalidRoot (msg : String)
  | walkFault (msg : String)
deriving Repr, DecidableEq

/-- The message carried by an `index_path` failure (`str(exc)`). -/
def IndexError.text : IndexError → String
  | .invalidRoot m => m
  | .walkFault m => m

/-- `index_path` (`audit_indexer.py:64`) over an explicit event stream:
validation of the root happens before any store access (`root.exists()`
then `root.is_dir()`, `audit_indexer.py:72`–`76`); only then do the store
transactions of `index_prims` run.  Returns the outcome, the database
after the call, and the emitted store transactions. -/
def index_path_events (db : Db) (present isDir : Bool) (events : List WalkEvent)
    (root : String) (rid : Nat) (bs : Nat) (dur : Option Nat) (now : String) :
    Except IndexError IndexResult × Db × List Prim :=
  if ¬present then
    (.error (.invalidRoot ("Root path does not exist: " ++ root)), db, [])
  else if ¬isDir then
    (.error (.invalidRoot ("Root path is not a directory: " ++ root)), db, [])
  else
    let (ps, res) := index_prims root rid bs events dur now
    match res with
    | .ok r => (.ok r, applyPrims db ps, ps)
    | .error m => (.error (.walkFault m), applyPrims db ps, ps)

/-- `index_path` on an actual filesystem tree: the event stream is the walk
of the tree, with no injected fault. -/
def index_path_tree (db : Db) (present isDir : Bool) (tree : DirTree)
    (root : String) (rid : Nat) (bs : Nat) (dur : Option Nat) (now : String) :
    Except IndexError IndexResult × Db × List Prim :=
  index_path_events db present isDir (treeEvents tree) root rid bs dur now

/-! ## The scheduler: `job_manager.py` -/

/-- The in-memory `JobStatus` (`job_manager.py:19`); the `uuid` is an
opaque `Nat`, and the wall-clock fields are not modelled (no claim reads
them). -/
structure JobStatus where
  job_id : Nat
  run_id : Nat
  root_path : String
  status : String
  message : String
  processed_files : Nat
  error_count : Nat
deriving Repr, DecidableEq

/-- The scheduler's own state: the current job slot and a count of worker
threads ever launched (so that "a second worker was spawned" is
observable). -/
structure SchedState where
  job : Option JobStatus
  threads_spawned : Nat
deriving Repr, DecidableEq

/-- `JobManager.has_active_job` (`job_manager.py:87`): true iff the current
job's status is `queued` or `running`. -/
def has_active_job (st : SchedState) : Bool :=
  match st.job with
  | some j => j.status == "queued" || j.status == "running"
  | none => false

/-- The guard actually evaluated by `JobManager.start`
(`job_manager.py:64`): `self._job and self._job.status == "running"`. -/
def startBlocked (st : SchedState) : Bool :=
  match st.job with
  | some j => j.status == "running"
  | none => false

/-- Outcome of a `start` call: the contention error, or the new job plus
the updated scheduler state and database. -/
inductive StartOutcome where
  | alreadyRunning
  | started (job : JobStatus) (st : SchedState) (db : Db)
deriving Repr, DecidableEq

/-- `JobManager.start` (`job_manager.py:60`): raise the contention error if
the guard holds; otherwise `prepare_run`, install a fresh `queued` job in
the slot, and launch the worker thread. -/
def start (st : SchedState) (db : Db) (root : String) (now : String) (jid : Nat) :
    StartOutcome :=
  if startBlocked st then .alreadyRunning
  else
    let p := prepare_run db root now
    let job : JobStatus :=
      { job_id := jid
        run_id := p.1
        root_path := root
        status := "queued"
        message := "Queued (preparing to index)"
        processed_files := 0
        error_count := 0 }
    .started job { job := some job, threads_spawned := st.threads_spawned + 1 } p.2

/-- The counters delivered by the last progress callback of a transaction
list (each `Prim.progress` is also a callback), as `_on_progress` leaves
them in the in-memory job; `(0, 0)` if no callback ran. -/
def lastProgress (ps : List Prim) : Nat × Nat :=
  ps.foldl (fun acc p => match p with | .progress _ tf te => (tf, te) | _ => acc) (0, 0)

/-- `JobManager._worker` (`job_manager.py:91`): set the job `running`,
invoke the crawler, and convert the outcome into a terminal job status —
`completed` with the result's counts, or, on any exception, `failed` with
message `"Scan failed: ..."` and the callback-accumulated counts plus one
error.  It is a total function: the exception is consumed, not re-raised
out of the thread. -/
def worker_run (job : JobStatus) (db : Db) (present isDir : Bool)
    (events : List WalkEvent) (bs : Nat) (dur : Option Nat) (now : String) :
    JobStatus × Db :=
  let j1 := { job with status := "running", message := "Indexing…" }
  let out := index_path_events db present isDir events job.root_path job.run_id bs dur now
  match out.1 with
  | .ok r =>
      ({ j1 with
          status := "completed"
          message := "Scan complete."
          processed_files := r.total_files
          error_count := r.error_count }, out.2.1)
  | .error e =>
      let lp := lastProgress out.2.2
      ({ j1 with
          status := "failed"
          message := "Scan failed: " ++ e.text
          processed_files := lp.1
          error_count := lp.2 + 1 }, out.2.1)

/-- A `start` call followed by the complete execution of the worker it
launches (the two run sequentially on the shared state in the model; the
thread interleavings do not touch the durable store out of order because
the single worker issues its transactions sequentially). -/
def start_and_run (st : SchedState) (db : Db) (root : String) (present isDir : Bool)
    (events : List WalkEvent) (bs : Nat) (dur : Option Nat) (now : String) (jid : Nat) :
    SchedState × Db × Option JobStatus :=
  match start st db root now jid with
  | .alreadyRunning => (st, db, none)
  | .started job st' db' =>
      let r := worker_run job db' present isDir events bs dur now
      ({ st' with job := some r.1 }, r.2, some r.1)

/-! ## Auxiliary notions used by the statements -/

/-- Database well-formedness, as SQLite guarantees it for an
`INTEGER PRIMARY KEY` table: run ids are pairwise distinct and below the
fresh-id counter. -/
def Db.WF (db : Db) : Prop :=
  db.runs.Pairwise (fun a b => a.run_id ≠ b.run_id) ∧
    ∀ r ∈ db.runs, r.run_id < db.next_run_id

instance Db.WF.instDecidable (db : Db) : Decidable db.WF :=
  inferInstanceAs (Decidable (_ ∧ _))

/-- The forward status transitions of the run state machine. -/
def forwardStep (old new : String) : Prop :=
  old = new ∨ (old = "queued" ∧ new = "running") ∨
    (old = "running" ∧ (new = "completed" ∨ new = "failed"))

instance forwardStep.instDecidable (old new : String) : Decidable (forwardStep old new) :=
  inferInstanceAs (Decidable (_ ∨ _))

/-- Which status change a given store transaction is allowed to make to a
run row: `prepare_run` may additionally reset any status back to
`queued`; every other transaction may only move forward. -/
def primAllowed : Prim → String → String → Prop
  | .prep _ _, old, new => old = new ∨ new = "queued"
  | _, old, new => forwardStep old new

instance primAllowed.instDecidable (p : Prim) (old new : String) :
    Decidable (primAllowed p old new) :=
  match p with
  | .prep _ _ => inferInstanceAs (Decidable (_ ∨ _))
  | .markStarted _ _ => inferInstanceAs (Decidable (forwardStep old new))
  | .progress _ _ _ => inferInstanceAs (Decidable (forwardStep old new))
  | .insertBatch _ _ => inferInstanceAs (Decidable (forwardStep old new))
  | .finalize _ _ _ _ _ _ _ => inferInstanceAs (Decidable (forwardStep old new))

/-- A store transaction respects the status state machine on a database:
any run row before and after that carries the same id changed status only
in an allowed way. -/
def primOK (db : Db) (p : Prim) : Prop :=
  ∀ r ∈ db.runs, ∀ r' ∈ (applyPrim db p).runs,
    r.run_id = r'.run_id → primAllowed p r.status r'.status

instance primOK.instDecidable (db : Db) (p : Prim) : Decidable (primOK db p) :=
  inferInstanceAs (Decidable (∀ r ∈ db.runs, ∀ r' ∈ (applyPrim db p).runs,
    r.run_id = r'.run_id → primAllowed p r.status r'.status))

/-- Every transaction of the sequence, applied in order, respects the
status state machine. -/
def SeqOK : Db → List Prim → Prop
  | _, [] => True
  | db, p :: ps => primOK db p ∧ SeqOK (applyPrim db p) ps

instance SeqOK.instDecidable : ∀ (db : Db) (ps : List Prim), Decidable (SeqOK db ps)
  | _, [] => isTrue trivial
  | db, p :: ps =>
      haveI : Decidable (SeqOK (applyPrim db p) ps) := SeqOK.instDecidable _ ps
      inferInstanceAs (Decidable (primOK db p ∧ SeqOK (applyPrim db p) ps))

/-- One scheduler-level scan as the program performs it: `start` prepares
the run, then the worker invokes the crawler on it.  `valid` records
whether the root exists and is a directory. -/
structure ScanOp where
  root : String
  now : String
  valid : Bool
  events : List WalkEvent
  bs : Nat
  dur : Option Nat
deriving Repr, DecidableEq

/-- The store transactions issued by one scan against a given initial
database: the `prepare_run` of `start`, then — when the root validates —
the crawler's transactions against the prepared run id. -/
def scan_prims (db : Db) (op : ScanOp) : List Prim :=
  let rid := (prepare_run db op.root op.now).1
  Prim.prep op.root op.now ::
    (if op.valid then (index_prims op.root rid op.bs op.events op.dur op.now).1 else [])

/-- The database after one scan. -/
def scan_apply (db : Db) (op : ScanOp) : Db := applyPrims db (scan_prims db op)

/-- The store transactions of a sequence of scans, each prepared against
the database state the previous ones produced. -/
def seq_prims (db : Db) : List ScanOp → List Prim
  | [] => []
  | op :: ops => scan_prims db op ++ seq_prims (scan_apply db op) ops

/-- Number of per-file (stat-failure) errors in an event stream. -/
def countStatErrors (evs : List WalkEvent) : Nat :=
  (evs.filter fun e => match e with | .file _ n => !n.statOk | .fault _ => false).length

/-- An event stream containing no injected exception. -/
def faultFree (evs : List WalkEvent) : Bool :=
  evs.all fun e => match e with | .file _ _ => true | .fault _ => false

/-- ASCII-lowered character list of a string (how SQLite's `LIKE` sees
text). -/
def lowerChars (s : String) : List Char := s.data.map asciiLower

/-- The claim's notion of a case-preserving substring: `needle` occurs in
`hay` with identical characters. -/
def containsCase (needle hay : String) : Prop := needle.data <:+: hay.data

instance containsCase.instDecidable (needle hay : String) :
    Decidable (containsCase needle hay) :=
  inferInstanceAs (Decidable (needle.data <:+: hay.data))

/-- A filter string containing no `LIKE` metacharacter. -/
def noWildcards (s : String) : Bool :=
  s.data.all fun c => !(c == '%' || c == '_')

/-- Number of pages needed for `total` rows at `page_size` rows per page:
`ceil(total / page_size)`. -/
def pageCount (total page_size : Nat) : Nat := (total + page_size - 1) / page_size

/-- A mid-crawl transaction: a batch insert or a progress update (the only
transactions `_flush_batch` issues). -/
def MidPrim (p : Prim) : Prop :=
  (∃ a b, p = Prim.insertBatch a b) ∨ (∃ a b c, p = Prim.progress a b c)

/-- Whether a `start` call was rejected with the contention error. -/
def StartOutcome.isError : StartOutcome → Bool
  | .alreadyRunning => true
  | .started _ _ _ => false

/-- Number of run rows in the database a successful `start` produced. -/
def StartOutcome.dbRunCount : StartOutcome → Option Nat
  | .alreadyRunning => none
  | .started _ _ db => some db.runs.length

/-- Worker-thread launch count after a successful `start`. -/
def StartOutcome.spawnCount : StartOutcome → Option Nat
  | .alreadyRunning => none
  | .started _ st _ => some st.threads_spawned

/-- Fallback row for positional indexing in statements. -/
def dummyRow : FileRow :=
  { run_id := 0, path := "", file_name := "", subfolder := "", extension := ""
    created_at := none, modified_at := none, modified_by := none }

/-! ## Concrete fixtures for witnesses and counterexamples -/

/-- An empty database whose fresh-id counter starts at 1. -/
def emptyDb : Db := { runs := [], files := [], next_run_id := 1 }

/-- A scheduler state whose current job is still `queued` (the window
after `start` returns and before its worker thread first runs). -/
def queuedSched : SchedState :=
  { job := some
      { job_id := 1, run_id := 5, root_path := "/data", status := "queued"
        message := "Queued (preparing to index)", processed_files := 0, error_count := 0 }
    threads_spawned := 1 }

/-- The database matching `queuedSched`: run 5 for `/data` is queued. -/
def queuedDb : Db :=
  { runs := [{ run_id := 5, root_path := "/data", queued_at := some "t0"
               started_at := none, completed_at := none, status := "queued"
               total_files := 0, total_errors := 0, duration_seconds := none
               error_message := none }]
    files := [], next_run_id := 6 }

/-- A stored file row whose subfolder is upper-case `FINANCE`. -/
def financeRow : FileRow :=
  { run_id := 1, path := "/r/FINANCE/a.pdf", file_name := "a.pdf"
    subfolder := "FINANCE", extension := "pdf"
    created_at := none, modified_at := none, modified_by := none }

/-- A database holding only `financeRow` under run 1. -/
def financeDb : Db := { runs := [], files := [financeRow], next_run_id := 2 }

/-- A stat-able file used in small fixtures. -/
def okNode : FileNode :=
  { name := "a.txt", statOk := true, created_at := "c1", modified_at := "m1"
    owner := some "alice" }

/-- A file whose `stat()` fails, used in small fixtures. -/
def badNode : FileNode :=
  { name := "b.pdf", statOk := false, created_at := "", modified_at := "", owner := none }

/-- A small tree: a readable root with two files and one unreadable
subdirectory that itself contains a file. -/
def mixedTree : DirTree :=
  .node true [okNode, badNode]
    [("secret", .node false [{ name := "c.doc", statOk := true, created_at := "c"
                               modified_at := "m", owner := none }] [])]

/-- A database holding one file row that collides with `c3Row` on
`(run_id, path)`, with a stored owner and no stored modified time. -/
def c3Db : Db :=
  { runs := []
    files := [{ run_id := 7, path := "/r/a", file_name := "old", subfolder := "oldsub"
                extension := "txt", created_at := some "c-old", modified_at := none
                modified_by := some "alice" }]
    next_run_id := 1 }

/-- An incoming tuple for the same `(run_id, path)`: null `created_at` and
`modified_by`, non-null `modified_at`. -/
def c3Row : InRow :=
  { path := "/r/a", file_name := "a", subfolder := "/", extension := "txt"
    created_at := none, modified_at := some "m-new", modified_by := none }

/-- A concrete scan of a small valid tree. -/
def scanOpA : ScanOp :=
  { root := "/r", now := "t0", valid := true
    events := [.file [] okNode, .file [] badNode], bs := 500, dur := none }

/-- A concrete scan of the same root whose walk hits a fault. -/
def scanOpB : ScanOp :=
  { root := "/r", now := "t3", valid := true
    events := [.file [] okNode, .fault "boom"], bs := 1, dur := none }

/-- A concrete scan of a root that fails validation. -/
def scanOpC : ScanOp :=
  { root := "/gone", now := "t6", valid := false, events := [], bs := 500, dur := none }

/-- The serialized store-transaction trace of the queued-window double
start: a first `start("/r")` issues its `prepare_run`, a second
`start("/r")` in the window where the job is still `queued` passes the
guard (the C1 slip) and issues a second `prepare_run` for the same root —
hence the same run id — and then each of the two worker threads runs its
crawl (here of an empty tree) to completion in turn.  Every transaction
here is one the store or crawler actually exposes, in an order the
program can actually produce. -/
def doubleStartPrims : List Prim :=
  Prim.prep "/r" "t0" ::
  Prim.prep "/r" "t1" ::
  ((index_prims "/r" (prepare_run emptyDb "/r" "t0").1 500 [] none "t2").1 ++
    (index_prims "/r" (prepare_run emptyDb "/r" "t0").1 500 [] none "t3").1)

/-! ## Store lemmas -/

theorem mark_run_started_files (db : Db) (rid : Nat) (now : String) :
    (mark_run_started db rid now).files = db.files := rfl

theorem update_run_progress_files (db : Db) (rid tf te : Nat) :
    (update_run_progress db rid tf te).files = db.files := rfl

theorem finalize_run_files (db : Db) (rid tf te : Nat) (dur : Option Nat)
    (st : String) (msg : Option String) (now : String) :
    (finalize_run db rid tf te dur st msg now).files = db.files := rfl

theorem resetRun_run_id (rid : Nat) (now : String) (r : RunRow) :
    (resetRun rid now r).run_id = r.run_id := by
  unfold resetRun; split <;> rfl

theorem resetRun_root_path (rid : Nat) (now : String) (r : RunRow) :
    (resetRun rid now r).root_path = r.root_path := by
  unfold resetRun; split <;> rfl

theorem startRunRow_run_id (rid : Nat) (now : String) (r : RunRow) :
    (startRunRow rid now r).run_id = r.run_id := by
  unfold startRunRow; split <;> rfl

theorem progressRunRow_run_id (rid tf te : Nat) (r : RunRow) :
    (progressRunRow rid tf te r).run_id = r.run_id := by
  unfold progressRunRow; split <;> rfl

theorem progressRunRow_status (rid tf te : Nat) (r : RunRow) :
    (progressRunRow rid tf te r).status = r.status := by
  unfold progressRunRow; split <;> rfl

theorem finishRunRow_run_id (rid tf te : Nat) (dur : Option Nat) (st : String)
    (msg : Option String) (now : String) (r : RunRow) :
    (finishRunRow rid tf te dur st msg now r).run_id = r.run_id := by
  unfold finishRunRow; split <;> rfl

theorem mergeRow_run_id (row : InRow) (f : FileRow) :
    (mergeRow row f).run_id = f.run_id := rfl

theorem mergeRow_path (row : InRow) (f : FileRow) :
    (mergeRow row f).path = f.path := rfl

theorem upsertFile_keys (db : Db) (rid : Nat) (row : InRow) :
    ∀ f ∈ db.files, ∃ f' ∈ (upsertFile db rid row).files,
      f'.run_id = f.run_id ∧ f'.path = f.path := by
  intro f hf
  unfold upsertFile
  by_cases h : db.files.any (fun g => g.run_id == rid && g.path == row.path)
  · simp only [h, if_pos]
    refine ⟨if f.run_id == rid && f.path == row.path then mergeRow row f else f,
      List.mem_map.mpr ⟨f, hf, rfl⟩, ?_⟩
    by_cases hc : f.run_id == rid && f.path == row.path <;>
      simp [hc, mergeRow_run_id, mergeRow_path]
  · simp only [h, if_neg, not_false_iff]
    exact ⟨f, List.mem_append_left _ hf, rfl, rfl⟩

theorem insert_file_batch_keys (rows : List InRow) :
    ∀ (db : Db) (rid : Nat), ∀ f ∈ db.files,
      ∃ f' ∈ (insert_file_batch db rid rows).files,
        f'.run_id = f.run_id ∧ f'.path = f.path := by
  induction rows with
  | nil => intro db rid f hf; exact ⟨f, hf, rfl, rfl⟩
  | cons r rest ih =>
      intro db rid f hf
      obtain ⟨f1, hf1, hid1, hp1⟩ := upsertFile_keys db rid r f hf
      obtain ⟨f2, hf2, hid2, hp2⟩ := ih (upsertFile db rid r) rid f1 hf1
      exact ⟨f2, hf2, hid2.trans hid1, hp2.trans hp1⟩

theorem prepare_run_find (db : Db) (root now : String) :
    ∃ row, ((prepare_run db root now).2.runs.find? fun r => r.root_path == root) = some row ∧
      row.run_id = (prepare_run db root now).1 := by
  cases hf : db.runs.find? (fun r => r.root_path == root) with
  | some row =>
      have h1 : prepare_run db root now =
          (row.run_id,
            { db with
              runs := db.runs.map (resetRun row.run_id now)
              files := db.files.filter fun f => f.run_id != row.run_id }) := by
        rw [prepare_run, hf]
      refine ⟨resetRun row.run_id now row, ?_, ?_⟩
      · rw [h1]
        show (db.runs.map (resetRun row.run_id now)).find? _ = _
        rw [List.find?_map]
        have hfun : ((fun r : RunRow => r.root_path == root) ∘ resetRun row.run_id now) =
            fun r : RunRow => r.root_path == root := by
          funext r
          simp [Function.comp, resetRun_root_path]
        rw [hfun, hf]
        rfl
      · rw [h1, resetRun_run_id]
  | none =>
      have h1 : prepare_run db root now =
          (db.next_run_id,
            { db with
              runs := db.runs ++ [newRun db.next_run_id root now]
              next_run_id := db.next_run_id + 1 }) := by
        rw [prepare_run, hf]
      refine ⟨newRun db.next_run_id root now, ?_, by rw [h1]; rfl⟩
      rw [h1]
      show ((db.runs ++ [newRun db.next_run_id root now]).find? fun r => r.root_path == root) = _
      rw [List.find?_append, hf]
      simp [newRun]

/-- Claim C2: For every root `R`, calling `prepare_run R` twice returns the
same run id; the second call resets that run's counters to 0 and its
status to `queued`, deletes exactly the file rows of that run id, and
leaves all other runs' file rows untouched; and among the store
operations, `prepare_run` is the only one that deletes file rows
(`mark_run_started`, `update_run_progress` and `finalize_run` leave the
file table unchanged, and `insert_file_batch` preserves every existing
`(run_id, path)` key). -/
theorem prepare_run_twice_resets (db : Db) (root t1 t2 : String) :
    (prepare_run (prepare_run db root t1).2 root t2).1 = (prepare_run db root t1).1 ∧
    (∀ r ∈ (prepare_run (prepare_run db root t1).2 root t2).2.runs,
        r.run_id = (prepare_run db root t1).1 →
        r.status = "queued" ∧ r.total_files = 0 ∧ r.total_errors = 0) ∧
    (∀ f ∈ (prepare_run (prepare_run db root t1).2 root t2).2.files,
        f.run_id ≠ (prepare_run db root t1).1) ∧
    ((prepare_run (prepare_run db root t1).2 root t2).2.files =
      (prepare_run db root t1).2.files.filter
        fun f => f.run_id != (prepare_run db root t1).1) ∧
    (∀ (db2 : Db) (rid2 tf te : Nat) (dur : Option Nat) (st : String)
        (msg : Option String) (now : String) (rows : List InRow),
        (mark_run_started db2 rid2 now).files = db2.files ∧
        (update_run_progress db2 rid2 tf te).files = db2.files ∧
        (finalize_run db2 rid2 tf te dur st msg now).files = db2.files ∧
        ∀ f ∈ db2.files, ∃ f' ∈ (insert_file_batch db2 rid2 rows).files,
          f'.run_id = f.run_id ∧ f'.path = f.path) := by
  obtain ⟨row, hfind, hrid⟩ := prepare_run_find db root t1
  have h2 : prepare_run (prepare_run db root t1).2 root t2 =
      (row.run_id,
        { (prepare_run db root t1).2 with
          runs := (prepare_run db root t1).2.runs.map (resetRun row.run_id t2)
          files := (prepare_run db root t1).2.files.filter
            fun f => f.run_id != row.run_id }) := by
    rw [prepare_run, hfind]
  refine ⟨?_, ?_, ?_, ?_, ?_⟩
  · rw [h2]; exact hrid
  · rw [h2]
    intro r hr hid
    obtain ⟨r0, _, rfl⟩ := List.mem_map.mp hr
    rw [resetRun_run_id] at hid
    have hr0 : r0.run_id = row.run_id := hid.trans hrid.symm
    simp [resetRun, hr0]
  · rw [h2]
    intro f hf
    have := List.of_mem_filter hf
    simpa [bne_iff_ne, hrid] using this
  · rw [h2]
    simp only [hrid]
  · intro db2 rid2 tf te dur st msg now rows
    exact ⟨rfl, rfl, rfl, insert_file_batch_keys rows db2 rid2⟩

/-- Witness for C2: the reset behaviour evaluated on a concrete database. -/
theorem prepare_run_twice_resets_witness :
    (prepare_run (prepare_run emptyDb "/r" "t1").2 "/r" "t2").1 =
      (prepare_run emptyDb "/r" "t1").1 :=
  (prepare_run_twice_resets emptyDb "/r" "t1" "t2").1

/-- Claim C3: `insert_file_batch` keeps `(run_id, path)` unique: when the
incoming row's key already exists, the batch updates in place instead of
adding a row — the table keeps its length, the keyed row's `file_name`,
`subfolder` and `extension` are overwritten unconditionally, its
`created_at`, `modified_at` and `modified_by` are overwritten exactly when
the incoming value is non-null (the stored value survives a null), and
every other row is untouched. -/
theorem insert_file_batch_upsert (db : Db) (rid : Nat) (row : InRow)
    (h : db.files.any (fun f => f.run_id == rid && f.path == row.path) = true) :
    (insert_file_batch db rid [row]).files.length = db.files.length ∧
    ∀ i, i < db.files.length →
      (((db.files.getD i dummyRow).run_id = rid ∧
          (db.files.getD i dummyRow).path = row.path) →
        ((insert_file_batch db rid [row]).files.getD i dummyRow).run_id = rid ∧
        ((insert_file_batch db rid [row]).files.getD i dummyRow).path = row.path ∧
        ((insert_file_batch db rid [row]).files.getD i dummyRow).file_name = row.file_name ∧
        ((insert_file_batch db rid [row]).files.getD i dummyRow).subfolder = row.subfolder ∧
        ((insert_file_batch db rid [row]).files.getD i dummyRow).extension = row.extension ∧
        (∀ v, row.created_at = some v →
          ((insert_file_batch db rid [row]).files.getD i dummyRow).created_at = some v) ∧
        (row.created_at = none →
          ((insert_file_batch db rid [row]).files.getD i dummyRow).created_at =
            (db.files.getD i dummyRow).created_at) ∧
        (∀ v, row.modified_at = some v →
          ((insert_file_batch db rid [row]).files.getD i dummyRow).modified_at = some v) ∧
        (row.modified_at = none →
          ((insert_file_batch db rid [row]).files.getD i dummyRow).modified_at =
            (db.files.getD i dummyRow).modified_at) ∧
        (∀ v, row.modified_by = some v →
          ((insert_file_batch db rid [row]).files.getD i dummyRow).modified_by = some v) ∧
        (row.modified_by = none →
          ((insert_file_batch db rid [row]).files.getD i dummyRow).modified_by =
            (db.files.getD i dummyRow).modified_by)) ∧
      (¬((db.files.getD i dummyRow).run_id = rid ∧
          (db.files.getD i dummyRow).path = row.path) →
        (insert_file_batch db rid [row]).files.getD i dummyRow =
          db.files.getD i dummyRow) := by
  have hb : insert_file_batch db rid [row] = upsertFile db rid row := rfl
  rw [hb]
  unfold upsertFile
  rw [if_pos h]
  constructor
  · exact List.length_map _ _
  · intro i hi
    have hi' : i < (db.files.map fun f =>
        if f.run_id == rid && f.path == row.path then mergeRow row f else f).length := by
      simpa using hi
    rw [List.getD_eq_getElem _ _ hi, List.getD_eq_getElem _ _ hi']
    rw [List.getElem_map]
    constructor
    · rintro ⟨h1, h2⟩
      have hc : ((db.files[i]).run_id == rid && (db.files[i]).path == row.path) = true := by
        simp [h1, h2]
      rw [if_pos hc]
      refine ⟨?_, ?_, rfl, rfl, rfl, ?_, ?_, ?_, ?_, ?_, ?_⟩
      · rw [mergeRow_run_id]; exact h1
      · rw [mergeRow_path]; exact h2
      · intro v hv; simp [mergeRow, coalesce, hv]
      · intro hv; simp [mergeRow, coalesce, hv]
      · intro v hv; simp [mergeRow, coalesce, hv]
      · intro hv; simp [mergeRow, coalesce, hv]
      · intro v hv; simp [mergeRow, coalesce, hv]
      · intro hv; simp [mergeRow, coalesce, hv]
    · intro hn
      have hc : ((db.files[i]).run_id == rid && (db.files[i]).path == row.path) = false := by
        rcases Bool.eq_false_or_eq_true ((db.files[i]).run_id == rid &&
            (db.files[i]).path == row.path) with hf | ht
        · exact absurd (by simpa using hf) hn
        · exact ht
      rw [if_neg (by simp [hc])]

/-- Witness for C3: the upsert on `c3Db` keeps the table size. -/
theorem insert_file_batch_upsert_witness :
    (insert_file_batch c3Db 7 [c3Row]).files.length = c3Db.files.length :=
  (insert_file_batch_upsert c3Db 7 c3Row (by decide)).1

theorem filterMap_guard {α β : Type} (p : α → Bool) (g : α → β) (l : List α) :
    (l.filterMap fun a => if p a then some (g a) else none) = (l.filter p).map g := by
  induction l with
  | nil => rfl
  | cons a l ih =>
      by_cases hp : p a <;> simp [List.filterMap_cons, List.filter_cons, hp, ih]

/-- Claim C10: `_build_order_clause` considers only the first three sort
instructions; an instruction naming a column outside the allowed set is
dropped; the kept instructions become `(column, ascending?)` keys in
order, where any direction whose lowercase form differs from `asc` is
treated as descending (never rejected); and when nothing remains the
clause defaults to ascending `file_name`. -/
theorem build_order_clause_spec :
    (∀ insns : List SortInstruction,
        build_order_clause insns = build_order_clause (insns.take 3)) ∧
    (∀ insns : List SortInstruction,
        build_order_clause insns =
          if (((insns.take 3).filter fun i =>
                allowed_columns.contains i.column_id).map
                fun i => (i.column_id, strToLower i.direction == "asc")).isEmpty then
            [("file_name", true)]
          else
            ((insns.take 3).filter fun i => allowed_columns.contains i.column_id).map
              fun i => (i.column_id, strToLower i.direction == "asc")) ∧
    (∀ s : SortInstruction, allowed_columns.contains s.column_id = true →
        strToLower s.direction ≠ "asc" → build_order_clause [s] = [(s.column_id, false)]) ∧
    (∀ insns : List SortInstruction,
        ((insns.take 3).all fun i => !(allowed_columns.contains i.column_id)) = true →
        build_order_clause insns = [("file_name", true)]) := by
  have key : ∀ insns : List SortInstruction,
      ((insns.take 3).filterMap fun i =>
        if allowed_columns.contains i.column_id then
          some (i.column_id, strToLower i.direction == "asc")
        else none) =
      ((insns.take 3).filter fun i => allowed_columns.contains i.column_id).map
        fun i => (i.column_id, strToLower i.direction == "asc") := by
    intro insns
    exact filterMap_guard _ _ _
  refine ⟨?_, ?_, ?_, ?_⟩
  · intro insns
    simp [build_order_clause, List.take_take]
  · intro insns
    rw [build_order_clause, key]
  · intro s hc hd
    have hd' : (strToLower s.direction == "asc") = false := by
      simpa using hd
    have hm : s.column_id ∈ allowed_columns := by simpa using hc
    simp [build_order_clause, hm, hd']
  · intro insns hall
    have hnil : ((insns.take 3).filter fun i => allowed_columns.contains i.column_id) = [] := by
      rw [List.filter_eq_nil_iff]
      intro a ha
      have := List.all_eq_true.mp hall a ha
      simpa using this
    rw [build_order_clause, key, hnil]
    rfl

/-- Witness for C10: a lowered non-`asc` direction at an allowed column is
kept as descending. -/
theorem build_order_clause_spec_witness :
    build_order_clause [{ column_id := "modified_at", direction := "DESC" }] =
      [("modified_at", false)] :=
  build_order_clause_spec.2.2.1 { column_id := "modified_at", direction := "DESC" }
    (by decide) (by decide)

/-- Claim C1, code-bug evidence: in the state where the current job is still
`queued` — which `has_active_job` reports as an active job — the guard of
`start` does not fire: the call is accepted, a run row is created for the
new root, and a second worker thread is launched, contrary to the spec's
requirement that `start` fail with the contention error and change no
state while the current job is `queued` or `running`. -/
theorem start_queued_accepted :
    has_active_job queuedSched = true ∧
    startBlocked queuedSched = false ∧
    (start queuedSched queuedDb "/other" "t1" 2).isError = false ∧
    (start queuedSched queuedDb "/other" "t1" 2).dbRunCount = some 2 ∧
    (start queuedSched queuedDb "/other" "t1" 2).spawnCount = some 2 := by
  decide

/-- The guard does fire once the job has reached `running`: the contention
error is raised and nothing changes (the complement of the C1 bug). -/
theorem start_running_rejected :
    start { queuedSched with
      job := some { job_id := 1, run_id := 5, root_path := "/data", status := "running"
                    message := "Indexing…", processed_files := 0, error_count := 0 } }
      queuedDb "/other" "t1" 2 = .alreadyRunning := by
  decide

/-! ## LIKE-matching lemmas -/

theorem likeMatch_pct (ps s : List Char) :
    likeMatch ('%' :: ps) s = true ↔ ∃ s2, s2 <:+ s ∧ likeMatch ps s2 = true := by
  simp [likeMatch, List.any_eq_true, List.mem_tails]

theorem likeMatch_all_pct (s : List Char) : likeMatch ['%'] s = true :=
  (likeMatch_pct [] s).mpr ⟨[], List.nil_suffix, rfl⟩

theorem likeMatch_wildfree :
    ∀ p : List Char, (∀ c ∈ p, c ≠ '%' ∧ c ≠ '_') →
      ∀ s : List Char,
        (likeMatch (p ++ ['%']) s = true ↔ p.map asciiLower <+: s.map asciiLower) := by
  intro p
  induction p with
  | nil =>
      intro _ s
      simp only [List.nil_append, List.map_nil]
      exact iff_of_true (likeMatch_all_pct s) List.nil_prefix
  | cons a p ih =>
      intro hp s
      have ha : a ≠ '%' ∧ a ≠ '_' := hp a (List.mem_cons_self a p)
      have hp' : ∀ c ∈ p, c ≠ '%' ∧ c ≠ '_' := fun c hc => hp c (List.mem_cons_of_mem a hc)
      cases s with
      | nil =>
          simp [likeMatch, ha.1]
      | cons c s' =>
          simp only [List.cons_append, likeMatch, if_neg ha.1]
          rw [Bool.and_eq_true]
          have hu : (a == '_') = false := beq_eq_false_iff_ne.mpr ha.2
          rw [hu, Bool.false_or]
          simp only [List.map_cons, List.cons_prefix_cons]
          constructor
          · rintro ⟨hlow, hrest⟩
            exact ⟨by simpa using hlow, (ih hp' s').mp hrest⟩
          · rintro ⟨hlow, hrest⟩
            exact ⟨by simpa using hlow, (ih hp' s').mpr hrest⟩

theorem likeContains_wildfree (needle hay : String) (hw : noWildcards needle = true) :
    likeContains needle hay = true ↔ lowerChars needle <:+: lowerChars hay := by
  have hp : ∀ c ∈ needle.data, c ≠ '%' ∧ c ≠ '_' := by
    intro c hc
    have h2 := List.all_eq_true.mp hw c hc
    constructor
    · intro he; rw [he] at h2; simp at h2
    · intro he; rw [he] at h2; simp at h2
  unfold likeContains
  rw [likeMatch_pct]
  constructor
  · rintro ⟨s2, ⟨pre, hpre⟩, hm⟩
    rw [likeMatch_wildfree needle.data hp s2] at hm
    obtain ⟨post, hpost⟩ := hm
    refine ⟨pre.map asciiLower, post, ?_⟩
    unfold lowerChars
    rw [← hpre, List.map_append, ← hpost]
    simp [List.append_assoc]
  · rintro ⟨s, t, h⟩
    refine ⟨hay.data.drop s.length, List.drop_suffix _ _, ?_⟩
    rw [likeMatch_wildfree needle.data hp]
    rw [List.map_drop]
    show _ <+: (lowerChars hay).drop s.length
    rw [← h, List.append_assoc, List.drop_left]
    exact ⟨t, rfl⟩

theorem mem_fetch_page (db : Db) (rid : Nat) (i : Int) (P : Nat)
    (sorts : List SortInstruction) (exts : List String) (sub : String) :
    ∀ f ∈ (fetch_page db rid i P sorts exts sub).1,
      rowMatches rid exts sub f = true := by
  intro f hf
  have h1 : f ∈ sorted_rows db rid sorts exts sub :=
    List.mem_of_mem_drop (List.mem_of_mem_take hf)
  have h3 : f ∈ matching_rows db rid exts sub := by
    unfold sorted_rows at h1
    exact (List.mem_insertionSort _).mp h1
  exact List.of_mem_filter h3

/-- Claim C5, counterexample to the case-preserving reading: the page
query with subfolder filter `finance` returns the row whose subfolder is
`FINANCE` — SQLite's `LIKE` folds ASCII case — even though `FINANCE` does
not contain `finance` as a case-preserving substring. -/
theorem fetch_page_case_counterexample :
    financeRow ∈ (fetch_page financeDb 1 0 10 [] ["pdf"] "finance").1 ∧
    ¬ containsCase "finance" financeRow.subfolder := by
  decide

/-- Claim C5, amended: for every page returned under a non-empty extension
filter and a non-empty, wildcard-free subfolder filter, each row's
extension is exactly one of the filter's extensions, and each row's
subfolder contains the filter string as a substring up to ASCII case (the
`LIKE` match is case-insensitive on ASCII letters, not case-preserving). -/
theorem fetch_page_filters (db : Db) (rid : Nat) (i : Int) (P : Nat)
    (sorts : List SortInstruction) (exts : List String) (sub : String)
    (hexts : exts ≠ []) (hsub : sub ≠ "") (hw : noWildcards sub = true) :
    ∀ f ∈ (fetch_page db rid i P sorts exts sub).1,
      f.extension ∈ exts ∧ lowerChars sub <:+: lowerChars f.subfolder := by
  intro f hf
  have hm := mem_fetch_page db rid i P sorts exts sub f hf
  unfold rowMatches at hm
  rw [Bool.and_eq_true, Bool.and_eq_true] at hm
  obtain ⟨⟨_, hext⟩, hsubf⟩ := hm
  constructor
  · have hne : exts.isEmpty = false := by
      cases exts with
      | nil => exact absurd rfl hexts
      | cons a l => rfl
    rw [hne] at hext
    simpa using hext
  · have hne : (sub == "") = false := beq_eq_false_iff_ne.mpr hsub
    rw [hne] at hsubf
    simp only [Bool.false_eq_true, if_false] at hsubf
    exact (likeContains_wildfree sub f.subfolder hw).mp hsubf

/-- Witness for C5 (amended): evaluated on the `FINANCE` row. -/
theorem fetch_page_filters_witness :
    financeRow.extension ∈ ["pdf"] ∧
      lowerChars "finance" <:+: lowerChars financeRow.subfolder :=
  fetch_page_filters financeDb 1 0 10 [] ["pdf"] "finance"
    (by decide) (by decide) (by decide) financeRow (by decide)

/-! ## Ordering lemmas for the sort relation -/

theorem keyLt_trans : ∀ {x y z : Option String}, keyLt x y → keyLt y z → keyLt x z := by
  intro x y z h1 h2
  cases x <;> cases y <;> cases z <;> simp [keyLt] at h1 h2 ⊢
  exact lt_trans h1 h2

theorem keyLt_trichotomy : ∀ x y : Option String, keyLt x y ∨ x = y ∨ keyLt y x
  | none, none => Or.inr (Or.inl rfl)
  | none, some _ => Or.inl trivial
  | some _, none => Or.inr (Or.inr trivial)
  | some a, some b => by
      rcases lt_trichotomy a b with h | h | h
      · exact Or.inl h
      · exact Or.inr (Or.inl (by rw [h]))
      · exact Or.inr (Or.inr h)

theorem rowLe_total (keys : List (String × Bool)) :
    ∀ a b : FileRow, rowLe keys a b ∨ rowLe keys b a := by
  induction keys with
  | nil => intro a b; exact Or.inl trivial
  | cons k rest ih =>
      intro a b
      obtain ⟨c, asc⟩ := k
      rcases keyLt_trichotomy (sortKey c a) (sortKey c b) with h | h | h
      · cases asc
        · exact Or.inr (Or.inl h)
        · exact Or.inl (Or.inl h)
      · rcases ih a b with h2 | h2
        · exact Or.inl (Or.inr ⟨h, h2⟩)
        · exact Or.inr (Or.inr ⟨h.symm, h2⟩)
      · cases asc
        · exact Or.inl (Or.inl h)
        · exact Or.inr (Or.inl h)

theorem rowLe_trans (keys : List (String × Bool)) :
    ∀ a b c : FileRow, rowLe keys a b → rowLe keys b c → rowLe keys a c := by
  induction keys with
  | nil => intro a b c _ _; trivial
  | cons k rest ih =>
      intro a b c hab hbc
      obtain ⟨col, asc⟩ := k
      rcases hab with h1 | ⟨e1, r1⟩
      · rcases hbc with h2 | ⟨e2, r2⟩
        · left
          cases asc
          · exact keyLt_trans h2 h1
          · exact keyLt_trans h1 h2
        · left
          cases asc
          · rw [e2] at h1; exact h1
          · rw [e2] at h1; exact h1
      · rcases hbc with h2 | ⟨e2, r2⟩
        · left
          cases asc
          · rw [← e1] at h2; exact h2
          · rw [← e1] at h2; exact h2
        · exact Or.inr ⟨e1.trans e2, ih a b c r1 r2⟩

/-! ## Pagination lemmas -/

theorem pageCount_zero (P : Nat) (hP : 0 < P) : pageCount 0 P = 0 := by
  unfold pageCount
  exact Nat.div_eq_of_lt (by omega)

theorem pageCount_succ (n P : Nat) (hn : 0 < n) (hP : 0 < P) :
    pageCount n P = (n - 1) / P + 1 := by
  unfold pageCount
  have h : n + P - 1 = (n - 1) + P := by omega
  rw [h, Nat.add_div_right _ hP]

theorem flatten_pages_aux {α : Type} (P : Nat) (hP : 0 < P) :
    ∀ (n : Nat) (l : List α), l.length ≤ n →
      ((List.range (pageCount l.length P)).map fun i => (l.drop (i * P)).take P).flatten
        = l := by
  intro n
  induction n with
  | zero =>
      intro l hl
      have h0 : l = [] := List.eq_nil_of_length_eq_zero (Nat.le_zero.mp hl)
      subst h0
      simp [pageCount_zero P hP]
  | succ n ih =>
      intro l hl
      by_cases h0 : l = []
      · subst h0; simp [pageCount_zero P hP]
      · have hlen : 0 < l.length := List.length_pos.mpr h0
        rw [pageCount_succ l.length P hlen hP, List.range_succ_eq_map,
          List.map_cons, List.flatten_cons]
        simp only [Nat.zero_mul, List.drop_zero]
        rw [List.map_map]
        have heach : ((fun i => (l.drop (i * P)).take P) ∘ Nat.succ) =
            fun i => (((l.drop P).drop (i * P)).take P) := by
          funext i
          simp only [Function.comp_apply]
          have hmul : Nat.succ i * P = P + i * P := by
            rw [Nat.succ_mul, Nat.add_comm]
          rw [hmul, ← List.drop_drop]
        rw [heach]
        have hcount : (l.length - 1) / P = pageCount (l.drop P).length P := by
          rw [List.length_drop]
          by_cases hle : l.length ≤ P
          · have h1 : l.length - P = 0 := by omega
            rw [h1, pageCount_zero P hP]
            exact Nat.div_eq_of_lt (by omega)
          · have h2 : 0 < l.length - P := by omega
            rw [pageCount_succ _ P h2 hP]
            have h3 : l.length - 1 = (l.length - P - 1) + P := by omega
            rw [h3, Nat.add_div_right _ hP]
        rw [hcount, ih (l.drop P) (by rw [List.length_drop]; omega)]
        exact List.take_append_drop P l

theorem flatten_pages {α : Type} (P : Nat) (hP : 0 < P) (l : List α) :
    ((List.range (pageCount l.length P)).map fun i => (l.drop (i * P)).take P).flatten
      = l :=
  flatten_pages_aux P hP l.length l le_rfl

/-- Claim C4: For every run, filter and sort combination and page size
`P > 0`: a negative page index clamps to page zero (offset
`max(page_index, 0) × P`); the reported total is the number of matching
rows; concatenating pages `0 .. ceil(total/P) - 1` yields exactly the
ordered matching rows — a permutation of the matching rows, so no
duplicates and no omissions — and that concatenation is sorted in the
specified `ORDER BY` order. -/
theorem fetch_page_pagination (db : Db) (rid : Nat) (P : Nat) (hP : 0 < P)
    (sorts : List SortInstruction) (exts : List String) (sub : String) :
    (∀ i : Int, i ≤ 0 → fetch_page db rid i P sorts exts sub =
        fetch_page db rid 0 P sorts exts sub) ∧
    (fetch_page db rid 0 P sorts exts sub).2 = (matching_rows db rid exts sub).length ∧
    ((List.range (pageCount (fetch_page db rid 0 P sorts exts sub).2 P)).map
        fun i : Nat => (fetch_page db rid (i : Int) P sorts exts sub).1).flatten =
      sorted_rows db rid sorts exts sub ∧
    (sorted_rows db rid sorts exts sub).Perm (matching_rows db rid exts sub) ∧
    List.Sorted (rowLe (build_order_clause sorts)) (sorted_rows db rid sorts exts sub) := by
  refine ⟨?_, rfl, ?_, List.perm_insertionSort _ _, ?_⟩
  · intro i hi
    unfold fetch_page
    rw [max_eq_right hi, max_self]
  · have hlen : (sorted_rows db rid sorts exts sub).length =
        (matching_rows db rid exts sub).length :=
      (List.perm_insertionSort _ _).length_eq
    have h2 : (fetch_page db rid 0 P sorts exts sub).2 =
        (sorted_rows db rid sorts exts sub).length := hlen.symm
    rw [h2]
    have hpage : ∀ i ∈ List.range (pageCount (sorted_rows db rid sorts exts sub).length P),
        (fetch_page db rid (i : Int) P sorts exts sub).1 =
          ((sorted_rows db rid sorts exts sub).drop (i * P)).take P := by
      intro i _
      unfold fetch_page
      rw [max_eq_left (Int.natCast_nonneg i), Int.toNat_natCast]
    rw [List.map_congr_left hpage]
    exact flatten_pages P hP _
  · haveI h1 : IsTotal FileRow (rowLe (build_order_clause sorts)) := ⟨rowLe_total _⟩
    haveI h2 : IsTrans FileRow (rowLe (build_order_clause sorts)) := ⟨rowLe_trans _⟩
    exact List.sorted_insertionSort _ _

/-- Witness for C4: a negative page index behaves as page zero on a
concrete database. -/
theorem fetch_page_pagination_witness :
    fetch_page financeDb 1 (-1) 2 [] [] "" = fetch_page financeDb 1 0 2 [] [] "" :=
  (fetch_page_pagination financeDb 1 2 (by decide) [] [] "").1 (-1) (by decide)

/-! ## Crawl-loop lemmas -/

theorem countStatErrors_cons_ok (segs : List String) (node : FileNode)
    (l : List WalkEvent) (h : node.statOk = true) :
    countStatErrors (.file segs node :: l) = countStatErrors l := by
  simp [countStatErrors, List.filter_cons, h]

theorem countStatErrors_cons_bad (segs : List String) (node : FileNode)
    (h : node.statOk = false) (l : List WalkEvent) :
    countStatErrors (.file segs node :: l) = countStatErrors l + 1 := by
  simp [countStatErrors, List.filter_cons, h, Nat.add_comm]

theorem faultFree_cons_file (segs : List String) (node : FileNode) (l : List WalkEvent)
    (h : faultFree (.file segs node :: l) = true) : faultFree l = true := by
  simpa [faultFree] using h

theorem crawlSteps_cons_ok_flush (root : String) (rid bs : Nat) (acc : CrawlAcc)
    (segs : List String) (node : FileNode) (rest : List WalkEvent)
    (hs : node.statOk = true)
    (hb : bs ≤ (acc.batch ++ [rowOf root segs node]).length) :
    crawlSteps root rid bs acc (WalkEvent.file segs node :: rest) =
      (Prim.insertBatch rid (acc.batch ++ [rowOf root segs node]) ::
        Prim.progress rid (acc.total_files + (acc.batch ++ [rowOf root segs node]).length)
          acc.error_count ::
        (crawlSteps root rid bs
          ⟨[], acc.total_files + (acc.batch ++ [rowOf root segs node]).length,
            acc.error_count⟩ rest).1,
        (crawlSteps root rid bs
          ⟨[], acc.total_files + (acc.batch ++ [rowOf root segs node]).length,
            acc.error_count⟩ rest).2) := by
  simp only [crawlSteps]
  rw [if_pos hs, if_pos hb]

theorem crawlSteps_cons_ok_batch (root : String) (rid bs : Nat) (acc : CrawlAcc)
    (segs : List String) (node : FileNode) (rest : List WalkEvent)
    (hs : node.statOk = true)
    (hb : ¬ bs ≤ (acc.batch ++ [rowOf root segs node]).length) :
    crawlSteps root rid bs acc (WalkEvent.file segs node :: rest) =
      crawlSteps root rid bs
        ⟨acc.batch ++ [rowOf root segs node], acc.total_files, acc.error_count⟩ rest := by
  simp only [crawlSteps]
  rw [if_pos hs, if_neg hb]

theorem crawlSteps_cons_bad (root : String) (rid bs : Nat) (acc : CrawlAcc)
    (segs : List String) (node : FileNode) (rest : List WalkEvent)
    (hs : node.statOk = false) :
    crawlSteps root rid bs acc (WalkEvent.file segs node :: rest) =
      crawlSteps root rid bs ⟨acc.batch, acc.total_files, acc.error_count + 1⟩ rest := by
  simp only [crawlSteps]
  rw [if_neg (by rw [hs]; exact Bool.false_ne_true)]

theorem crawlSteps_fault (root : String) (rid bs : Nat) (msg : String) :
    ∀ (pre : List WalkEvent) (rest : List WalkEvent) (acc : CrawlAcc),
      faultFree pre = true →
      (crawlSteps root rid bs acc (pre ++ .fault msg :: rest)).2.2 = some msg ∧
      (crawlSteps root rid bs acc (pre ++ .fault msg :: rest)).2.1.error_count =
        acc.error_count + countStatErrors pre := by
  intro pre
  induction pre with
  | nil =>
      intro rest acc _
      constructor <;> simp [crawlSteps, countStatErrors]
  | cons e pre ih =>
      intro rest acc hff
      cases e with
      | fault m => simp [faultFree] at hff
      | file segs node =>
          have hff' : faultFree pre = true := faultFree_cons_file segs node pre hff
          rw [List.cons_append]
          cases hs : node.statOk with
          | true =>
              by_cases hb : bs ≤ (acc.batch ++ [rowOf root segs node]).length
              · rw [crawlSteps_cons_ok_flush root rid bs acc segs node _ hs hb]
                have h2 : _ = acc.error_count + countStatErrors pre :=
                  (ih rest ⟨[], acc.total_files + (acc.batch ++ [rowOf root segs node]).length,
                    acc.error_count⟩ hff').2
                refine ⟨(ih rest _ hff').1, ?_⟩
                rw [countStatErrors_cons_ok segs node pre hs]
                exact h2
              · rw [crawlSteps_cons_ok_batch root rid bs acc segs node _ hs hb]
                have h2 : _ = acc.error_count + countStatErrors pre :=
                  (ih rest ⟨acc.batch ++ [rowOf root segs node], acc.total_files,
                    acc.error_count⟩ hff').2
                refine ⟨(ih rest _ hff').1, ?_⟩
                rw [countStatErrors_cons_ok segs node pre hs]
                exact h2
          | false =>
              rw [crawlSteps_cons_bad root rid bs acc segs node _ hs]
              have h2 : _ = acc.error_count + 1 + countStatErrors pre :=
                (ih rest ⟨acc.batch, acc.total_files, acc.error_count + 1⟩ hff').2
              refine ⟨(ih rest _ hff').1, ?_⟩
              rw [countStatErrors_cons_bad segs node hs pre]
              omega

theorem crawlSteps_no_fault (root : String) (rid bs : Nat) :
    ∀ (evs : List WalkEvent) (acc : CrawlAcc), faultFree evs = true →
      (crawlSteps root rid bs acc evs).2.2 = none ∧
      (crawlSteps root rid bs acc evs).2.1.error_count =
        acc.error_count + countStatErrors evs := by
  intro evs
  induction evs with
  | nil =>
      intro acc _
      constructor <;> simp [crawlSteps, countStatErrors]
  | cons e evs ih =>
      intro acc hff
      cases e with
      | fault m => simp [faultFree] at hff
      | file segs node =>
          have hff' : faultFree evs = true := faultFree_cons_file segs node evs hff
          cases hs : node.statOk with
          | true =>
              by_cases hb : bs ≤ (acc.batch ++ [rowOf root segs node]).length
              · rw [crawlSteps_cons_ok_flush root rid bs acc segs node _ hs hb]
                have h2 : _ = acc.error_count + countStatErrors evs :=
                  (ih ⟨[], acc.total_files + (acc.batch ++ [rowOf root segs node]).length,
                    acc.error_count⟩ hff').2
                refine ⟨(ih _ hff').1, ?_⟩
                rw [countStatErrors_cons_ok segs node evs hs]
                exact h2
              · rw [crawlSteps_cons_ok_batch root rid bs acc segs node _ hs hb]
                have h2 : _ = acc.error_count + countStatErrors evs :=
                  (ih ⟨acc.batch ++ [rowOf root segs node], acc.total_files,
                    acc.error_count⟩ hff').2
                refine ⟨(ih _ hff').1, ?_⟩
                rw [countStatErrors_cons_ok segs node evs hs]
                exact h2
          | false =>
              rw [crawlSteps_cons_bad root rid bs acc segs node _ hs]
              have h2 : _ = acc.error_count + 1 + countStatErrors evs :=
                (ih ⟨acc.batch, acc.total_files, acc.error_count + 1⟩ hff').2
              refine ⟨(ih _ hff').1, ?_⟩
              rw [countStatErrors_cons_bad segs node hs evs]
              omega

theorem index_prims_fault_shape (root : String) (rid bs : Nat) (evs : List WalkEvent)
    (dur : Option Nat) (now : String) (msg : String)
    (h : (crawlSteps root rid bs ⟨[], 0, 0⟩ evs).2.2 = some msg) :
    index_prims root rid bs evs dur now =
      (Prim.markStarted rid now :: (crawlSteps root rid bs ⟨[], 0, 0⟩ evs).1 ++
        [Prim.finalize rid (crawlSteps root rid bs ⟨[], 0, 0⟩ evs).2.1.total_files
          ((crawlSteps root rid bs ⟨[], 0, 0⟩ evs).2.1.error_count + 1) dur "failed"
          (some msg) now],
        Except.error msg) := by
  simp only [index_prims, h]

theorem index_prims_no_fault_shape (root : String) (rid bs : Nat) (evs : List WalkEvent)
    (dur : Option Nat) (now : String)
    (h : (crawlSteps root rid bs ⟨[], 0, 0⟩ evs).2.2 = none) :
    index_prims root rid bs evs dur now =
      (Prim.markStarted rid now :: (crawlSteps root rid bs ⟨[], 0, 0⟩ evs).1 ++
        (if (crawlSteps root rid bs ⟨[], 0, 0⟩ evs).2.1.batch.isEmpty then []
         else [Prim.insertBatch rid (crawlSteps root rid bs ⟨[], 0, 0⟩ evs).2.1.batch,
           Prim.progress rid ((crawlSteps root rid bs ⟨[], 0, 0⟩ evs).2.1.total_files +
             (crawlSteps root rid bs ⟨[], 0, 0⟩ evs).2.1.batch.length)
             (crawlSteps root rid bs ⟨[], 0, 0⟩ evs).2.1.error_count]) ++
        [Prim.finalize rid ((crawlSteps root rid bs ⟨[], 0, 0⟩ evs).2.1.total_files +
            (crawlSteps root rid bs ⟨[], 0, 0⟩ evs).2.1.batch.length)
          (crawlSteps root rid bs ⟨[], 0, 0⟩ evs).2.1.error_count dur "completed" none now],
        Except.ok ⟨rid, (crawlSteps root rid bs ⟨[], 0, 0⟩ evs).2.1.total_files +
          (crawlSteps root rid bs ⟨[], 0, 0⟩ evs).2.1.batch.length,
          (crawlSteps root rid bs ⟨[], 0, 0⟩ evs).2.1.error_count, dur⟩) := by
  simp only [index_prims, h]

theorem applyPrims_append (db : Db) (ps qs : List Prim) :
    applyPrims db (ps ++ qs) = applyPrims (applyPrims db ps) qs :=
  List.foldl_append _ _ _ _

theorem finalize_run_fields (db : Db) (rid tf te : Nat) (dur : Option Nat) (st : String)
    (msg : Option String) (now : String) :
    ∀ r ∈ (finalize_run db rid tf te dur st msg now).runs, r.run_id = rid →
      r.status = st ∧ r.total_errors = te ∧ r.error_message = msg := by
  intro r hr hid
  obtain ⟨r0, _, rfl⟩ := List.mem_map.mp hr
  rw [finishRunRow_run_id] at hid
  simp [finishRunRow, hid]

/-- Claim C7: When an unhandled exception interrupts the walk after a
fault-free prefix, `index_path` finalizes the run as `failed` with an
error count of the errors accumulated so far plus one and the exception's
message recorded, re-raises the exception (the `Except.error` outcome),
and the scheduler's worker converts it into a terminal `failed` job status
with a `Scan failed:` message instead of crashing. -/
theorem index_fault_finalizes_failed (root : String) (rid bs : Nat) (dur : Option Nat)
    (now : String) (pre rest : List WalkEvent) (msg : String) (db : Db)
    (job : JobStatus) (hpre : faultFree pre = true) :
    (index_prims root rid bs (pre ++ .fault msg :: rest) dur now).2 = Except.error msg ∧
    (∀ r ∈ (applyPrims db
        (index_prims root rid bs (pre ++ .fault msg :: rest) dur now).1).runs,
      r.run_id = rid →
        r.status = "failed" ∧ r.total_errors = countStatErrors pre + 1 ∧
          r.error_message = some msg) ∧
    (worker_run job db true true (pre ++ .fault msg :: rest) bs dur now).1.status =
      "failed" ∧
    (worker_run job db true true (pre ++ .fault msg :: rest) bs dur now).1.message =
      "Scan failed: " ++ msg := by
  obtain ⟨hsome, herr⟩ := crawlSteps_fault root rid bs msg pre rest ⟨[], 0, 0⟩ hpre
  have hip := index_prims_fault_shape root rid bs (pre ++ .fault msg :: rest) dur now msg hsome
  obtain ⟨hsome2, herr2⟩ :=
    crawlSteps_fault job.root_path job.run_id bs msg pre rest ⟨[], 0, 0⟩ hpre
  have hip2 := index_prims_fault_shape job.root_path job.run_id bs
    (pre ++ .fault msg :: rest) dur now msg hsome2
  refine ⟨?_, ?_, ?_, ?_⟩
  · rw [hip]
  · rw [hip]
    have hsplit : Prim.markStarted rid now ::
        (crawlSteps root rid bs ⟨[], 0, 0⟩ (pre ++ .fault msg :: rest)).1 ++
        [Prim.finalize rid
          (crawlSteps root rid bs ⟨[], 0, 0⟩ (pre ++ .fault msg :: rest)).2.1.total_files
          ((crawlSteps root rid bs ⟨[], 0, 0⟩
            (pre ++ .fault msg :: rest)).2.1.error_count + 1) dur "failed"
          (some msg) now] =
        (Prim.markStarted rid now ::
          (crawlSteps root rid bs ⟨[], 0, 0⟩ (pre ++ .fault msg :: rest)).1) ++
        [Prim.finalize rid
          (crawlSteps root rid bs ⟨[], 0, 0⟩ (pre ++ .fault msg :: rest)).2.1.total_files
          ((crawlSteps root rid bs ⟨[], 0, 0⟩
            (pre ++ .fault msg :: rest)).2.1.error_count + 1) dur "failed"
          (some msg) now] := by
      simp
    rw [hsplit, applyPrims_append]
    intro r hr hid
    have hfin := finalize_run_fields _ rid _ _ dur "failed" (some msg) now r hr hid
    refine ⟨hfin.1, ?_, hfin.2.2⟩
    rw [hfin.2.1, herr]
    simp
  · show (worker_run job db true true (pre ++ .fault msg :: rest) bs dur now).1.status = _
    unfold worker_run index_path_events
    rw [hip2]
    rfl
  · show (worker_run job db true true (pre ++ .fault msg :: rest) bs dur now).1.message = _
    unfold worker_run index_path_events
    rw [hip2]
    rfl

/-- Witness for C7: a concrete faulted crawl. -/
theorem index_fault_finalizes_failed_witness :
    (index_prims "/r" 1 500 ([.file [] okNode, .file [] badNode] ++
      WalkEvent.fault "boom" :: []) none "t").2 = Except.error "boom" :=
  (index_fault_finalizes_failed "/r" 1 500 none "t" [.file [] okNode, .file [] badNode]
    [] "boom" emptyDb
    { job_id := 9, run_id := 1, root_path := "/r", status := "running", message := ""
      processed_files := 0, error_count := 0 } (by decide)).1

/-! ## Walk lemmas -/

theorem walkFiles_unreadable (fs : List FileNode) (subs : List (String × DirTree))
    (segs : List String) : walkFiles (.node false fs subs) segs = [] := by
  simp [walkFiles]

theorem walkSubs_append : ∀ (a b : List (String × DirTree)) (segs : List String),
    walkSubs (a ++ b) segs = walkSubs a segs ++ walkSubs b segs := by
  intro a
  induction a with
  | nil => intro b segs; simp [walkSubs]
  | cons p rest ih =>
      intro b segs
      obtain ⟨n, t⟩ := p
      simp [walkSubs, ih, List.append_assoc]

theorem treeEvents_faultFree (t : DirTree) : faultFree (treeEvents t) = true := by
  unfold treeEvents faultFree
  rw [List.all_eq_true]
  intro e he
  obtain ⟨p, _, rfl⟩ := List.mem_map.mp he
  rfl

/-- Claim C9: A directory whose enumeration fails is skipped silently with
its whole subtree: it yields no files (first conjunct), the walk of a tree
containing it equals the walk of the tree with it removed — traversal of
the siblings continues (second conjunct) — and a crawl of any tree
completes: the outcome is `Except.ok` with `error_count` counting only
stat-failures of walked files (an enumeration failure adds nothing), and
the run's durable status is `completed` with the same error total (the
run is not failed). -/
theorem crawl_skips_unreadable_dir
    (fs f2 : List FileNode) (s1 s2 subs2 : List (String × DirTree)) (n : String)
    (segs : List String) (t : DirTree) (root : String) (rid bs : Nat) (db : Db)
    (dur : Option Nat) (now : String) :
    walkFiles (.node false f2 subs2) segs = [] ∧
    walkFiles (.node true fs (s1 ++ (n, .node false f2 subs2) :: s2)) segs =
      walkFiles (.node true fs (s1 ++ s2)) segs ∧
    (∃ res, (index_prims root rid bs (treeEvents t) dur now).2 = Except.ok res ∧
      res.error_count = countStatErrors (treeEvents t)) ∧
    (∀ r ∈ (applyPrims db (index_prims root rid bs (treeEvents t) dur now).1).runs,
      r.run_id = rid →
        r.status = "completed" ∧ r.total_errors = countStatErrors (treeEvents t)) := by
  obtain ⟨hnone, herr⟩ :=
    crawlSteps_no_fault root rid bs (treeEvents t) ⟨[], 0, 0⟩ (treeEvents_faultFree t)
  have hip := index_prims_no_fault_shape root rid bs (treeEvents t) dur now hnone
  refine ⟨walkFiles_unreadable f2 subs2 segs, ?_, ?_, ?_⟩
  · show (if true = true then (fs.map fun f => (segs, f)) ++
        walkSubs (s1 ++ (n, DirTree.node false f2 subs2) :: s2) segs else []) =
      (if true = true then (fs.map fun f => (segs, f)) ++ walkSubs (s1 ++ s2) segs else [])
    rw [if_pos rfl, if_pos rfl]
    have h1 : walkSubs (s1 ++ (n, DirTree.node false f2 subs2) :: s2) segs =
        walkSubs s1 segs ++ (walkFiles (DirTree.node false f2 subs2) (segs ++ [n]) ++
          walkSubs s2 segs) := by
      rw [walkSubs_append]
      rfl
    rw [h1, walkFiles_unreadable, walkSubs_append]
    simp
  · refine ⟨⟨rid, (crawlSteps root rid bs ⟨[], 0, 0⟩ (treeEvents t)).2.1.total_files +
      (crawlSteps root rid bs ⟨[], 0, 0⟩ (treeEvents t)).2.1.batch.length,
      (crawlSteps root rid bs ⟨[], 0, 0⟩ (treeEvents t)).2.1.error_count, dur⟩, ?_, ?_⟩
    · rw [hip]
    · show (crawlSteps root rid bs ⟨[], 0, 0⟩ (treeEvents t)).2.1.error_count =
        countStatErrors (treeEvents t)
      rw [herr]
      simp
  · rw [hip]
    have hsplit : Prim.markStarted rid now ::
        (crawlSteps root rid bs ⟨[], 0, 0⟩ (treeEvents t)).1 ++
        (if (crawlSteps root rid bs ⟨[], 0, 0⟩ (treeEvents t)).2.1.batch.isEmpty then []
         else [Prim.insertBatch rid (crawlSteps root rid bs ⟨[], 0, 0⟩ (treeEvents t)).2.1.batch,
           Prim.progress rid ((crawlSteps root rid bs ⟨[], 0, 0⟩ (treeEvents t)).2.1.total_files +
             (crawlSteps root rid bs ⟨[], 0, 0⟩ (treeEvents t)).2.1.batch.length)
             (crawlSteps root rid bs ⟨[], 0, 0⟩ (treeEvents t)).2.1.error_count]) ++
        [Prim.finalize rid ((crawlSteps root rid bs ⟨[], 0, 0⟩ (treeEvents t)).2.1.total_files +
            (crawlSteps root rid bs ⟨[], 0, 0⟩ (treeEvents t)).2.1.batch.length)
          (crawlSteps root rid bs ⟨[], 0, 0⟩ (treeEvents t)).2.1.error_count dur
          "completed" none now] =
        (Prim.markStarted rid now ::
          (crawlSteps root rid bs ⟨[], 0, 0⟩ (treeEvents t)).1 ++
          (if (crawlSteps root rid bs ⟨[], 0, 0⟩ (treeEvents t)).2.1.batch.isEmpty then []
           else [Prim.insertBatch rid (crawlSteps root rid bs ⟨[], 0, 0⟩ (treeEvents t)).2.1.batch,
             Prim.progress rid ((crawlSteps root rid bs ⟨[], 0, 0⟩ (treeEvents t)).2.1.total_files +
               (crawlSteps root rid bs ⟨[], 0, 0⟩ (treeEvents t)).2.1.batch.length)
               (crawlSteps root rid bs ⟨[], 0, 0⟩ (treeEvents t)).2.1.error_count])) ++
        [Prim.finalize rid ((crawlSteps root rid bs ⟨[], 0, 0⟩ (treeEvents t)).2.1.total_files +
            (crawlSteps root rid bs ⟨[], 0, 0⟩ (treeEvents t)).2.1.batch.length)
          (crawlSteps root rid bs ⟨[], 0, 0⟩ (treeEvents t)).2.1.error_count dur
          "completed" none now] := by
      simp
    rw [hsplit, applyPrims_append]
    intro r hr hid
    have hfin := finalize_run_fields _ rid _ _ dur "completed" none now r hr hid
    refine ⟨hfin.1, ?_⟩
    rw [hfin.2.1, herr]
    simp

/-- Witness for C9: removing a concrete unreadable subdirectory does not
change the walk. -/
theorem crawl_skips_unreadable_dir_witness :
    walkFiles (.node true [okNode] [("secret", .node false [badNode] [])]) [] =
      walkFiles (.node true [okNode] []) [] :=
  (crawl_skips_unreadable_dir [okNode] [badNode] [] [] [] "secret" [] mixedTree
    "/r" 1 500 emptyDb none "t").2.1

/-! ## Invalid-root lemmas -/

theorem prepare_run_status (db : Db) (root now : String) (hWF : db.WF) :
    ∀ r ∈ (prepare_run db root now).2.runs, r.run_id = (prepare_run db root now).1 →
      r.status = "queued" := by
  cases hf : db.runs.find? (fun r => r.root_path == root) with
  | some row =>
      have h1 : prepare_run db root now =
          (row.run_id,
            { db with
              runs := db.runs.map (resetRun row.run_id now)
              files := db.files.filter fun f => f.run_id != row.run_id }) := by
        rw [prepare_run, hf]
      rw [h1]
      intro r hr hid
      obtain ⟨r0, _, rfl⟩ := List.mem_map.mp hr
      rw [resetRun_run_id] at hid
      simp [resetRun, hid]
  | none =>
      have h1 : prepare_run db root now =
          (db.next_run_id,
            { db with
              runs := db.runs ++ [newRun db.next_run_id root now]
              next_run_id := db.next_run_id + 1 }) := by
        rw [prepare_run, hf]
      rw [h1]
      intro r hr hid
      rcases List.mem_append.mp hr with h | h
      · exact absurd hid (Nat.ne_of_lt (hWF.2 r h))
      · rw [List.mem_singleton.mp h]
        rfl

theorem index_path_events_invalid (db : Db) (events : List WalkEvent)
    (root : String) (rid bs : Nat) (dur : Option Nat) (now : String)
    (present isDir : Bool) (hv : present = false ∨ isDir = false) :
    ∃ m, index_path_events db present isDir events root rid bs dur now =
      (Except.error (IndexError.invalidRoot m), db, []) := by
  rcases hv with rfl | rfl
  · exact ⟨_, rfl⟩
  · cases present
    · exact ⟨_, rfl⟩
    · exact ⟨_, rfl⟩

theorem start_not_blocked (st : SchedState) (db : Db) (root now : String) (jid : Nat)
    (hnb : startBlocked st = false) :
    start st db root now jid =
      StartOutcome.started
        { job_id := jid, run_id := (prepare_run db root now).1, root_path := root
          status := "queued", message := "Queued (preparing to index)"
          processed_files := 0, error_count := 0 }
        { job := some
            { job_id := jid, run_id := (prepare_run db root now).1, root_path := root
              status := "queued", message := "Queued (preparing to index)"
              processed_files := 0, error_count := 0 }
          threads_spawned := st.threads_spawned + 1 }
        (prepare_run db root now).2 := by
  unfold start
  rw [if_neg (by rw [hnb]; exact Bool.false_ne_true)]

theorem start_and_run_invalid (st : SchedState) (db : Db) (root : String)
    (events : List WalkEvent) (bs : Nat) (dur : Option Nat) (now : String) (jid : Nat)
    (present isDir : Bool) (hv : present = false ∨ isDir = false)
    (hnb : startBlocked st = false) :
    ∃ m, start_and_run st db root present isDir events bs dur now jid =
      ({ job := some
           { job_id := jid, run_id := (prepare_run db root now).1, root_path := root
             status := "failed", message := "Scan failed: " ++ m
             processed_files := 0, error_count := 0 + 1 }
         threads_spawned := st.threads_spawned + 1 },
        (prepare_run db root now).2,
        some { job_id := jid, run_id := (prepare_run db root now).1, root_path := root
               status := "failed", message := "Scan failed: " ++ m
               processed_files := 0, error_count := 0 + 1 }) := by
  have hstart := start_not_blocked st db root now jid hnb
  rcases hv with rfl | rfl
  · exact ⟨_, by unfold start_and_run; rw [hstart]; rfl⟩
  · cases present
    · exact ⟨_, by unfold start_and_run; rw [hstart]; rfl⟩
    · exact ⟨_, by unfold start_and_run; rw [hstart]; rfl⟩

/-- Claim C6, counterexample to the as-stated claim: starting a crawl on a
missing root from an empty database does create a run row — `start`
performs `prepare_run` before any path validation — even though the crawl
then fails. -/
theorem start_invalid_root_creates_run :
    (start_and_run ⟨none, 0⟩ emptyDb "/missing" false false [] 500 none "t" 1).2.1.runs.length
      = 1 ∧
    ((start_and_run ⟨none, 0⟩ emptyDb "/missing" false false [] 500 none "t" 1).2.2.map
      fun j => j.status) = some "failed" := by
  decide

/-- Claim C6, amended: for a root that does not exist or is not a
directory, the crawler's `index_path` raises its validation error before
performing any store mutation (the database is returned unchanged), and
the run's durable status never reaches `running` — after the scheduler's
`start`+worker sequence the database equals the state `prepare_run` left,
in which the prepared run's status is `queued`, while the in-memory job
ends `failed`.  The scheduler does, however, create or reset the run row
(the counterexample), which the original claim ruled out. -/
theorem index_invalid_root_amended (db : Db) (st : SchedState) (root : String)
    (rid : Nat) (events : List WalkEvent) (bs : Nat) (dur : Option Nat) (now : String)
    (jid : Nat) (present isDir : Bool) (hv : present = false ∨ isDir = false)
    (hnb : startBlocked st = false) (hWF : db.WF) :
    (∃ m, (index_path_events db present isDir events root rid bs dur now).1 =
        Except.error (IndexError.invalidRoot m)) ∧
    (index_path_events db present isDir events root rid bs dur now).2.1 = db ∧
    (start_and_run st db root present isDir events bs dur now jid).2.1 =
      (prepare_run db root now).2 ∧
    (∀ r ∈ (start_and_run st db root present isDir events bs dur now jid).2.1.runs,
        r.run_id = (prepare_run db root now).1 → r.status = "queued") ∧
    ((start_and_run st db root present isDir events bs dur now jid).2.2.map
        fun j => j.status) = some "failed" := by
  obtain ⟨m1, hm1⟩ := index_path_events_invalid db events root rid bs dur now present isDir hv
  obtain ⟨m2, hrun⟩ := start_and_run_invalid st db root events bs dur now jid present isDir hv hnb
  refine ⟨⟨m1, by rw [hm1]⟩, by rw [hm1], by rw [hrun], ?_, by rw [hrun]; rfl⟩
  rw [hrun]
  exact prepare_run_status db root now hWF

/-- Witness for C6 (amended): the job ends `failed` on a concrete missing
root. -/
theorem index_invalid_root_amended_witness :
    ((start_and_run ⟨none, 0⟩ emptyDb "/gone" false false [] 500 none "t" 1).2.2.map
      fun j => j.status) = some "failed" :=
  (index_invalid_root_amended emptyDb ⟨none, 0⟩ "/gone" 0 [] 500 none "t" 1 false false
    (Or.inl rfl) (by decide) (by decide)).2.2.2.2

/-! ## Status state-machine lemmas -/

theorem wf_id_inj {db : Db} (hWF : db.WF) :
    ∀ r ∈ db.runs, ∀ r0 ∈ db.runs, r.run_id = r0.run_id → r = r0 := by
  intro r hr r0 hr0 hid
  by_contra hne
  have hsymm : Symmetric fun a b : RunRow => a.run_id ≠ b.run_id :=
    fun a b h e => h e.symm
  exact hWF.1.forall hsymm hr hr0 hne hid

theorem upsertFile_runs (db : Db) (rid : Nat) (row : InRow) :
    (upsertFile db rid row).runs = db.runs := by
  unfold upsertFile; split <;> rfl

theorem upsertFile_next (db : Db) (rid : Nat) (row : InRow) :
    (upsertFile db rid row).next_run_id = db.next_run_id := by
  unfold upsertFile; split <;> rfl

theorem insert_file_batch_runs (rows : List InRow) :
    ∀ (db : Db) (rid : Nat), (insert_file_batch db rid rows).runs = db.runs := by
  induction rows with
  | nil => intro db rid; rfl
  | cons r rest ih =>
      intro db rid
      show (insert_file_batch (upsertFile db rid r) rid rest).runs = db.runs
      rw [ih, upsertFile_runs]

theorem insert_file_batch_next (rows : List InRow) :
    ∀ (db : Db) (rid : Nat), (insert_file_batch db rid rows).next_run_id = db.next_run_id := by
  induction rows with
  | nil => intro db rid; rfl
  | cons r rest ih =>
      intro db rid
      show (insert_file_batch (upsertFile db rid r) rid rest).next_run_id = db.next_run_id
      rw [ih, upsertFile_next]

theorem WF_map_op (db : Db) (f : RunRow → RunRow) (files' : List FileRow)
    (hid : ∀ r, (f r).run_id = r.run_id) (h : db.WF) :
    Db.WF { runs := db.runs.map f, files := files', next_run_id := db.next_run_id } := by
  constructor
  · show (db.runs.map f).Pairwise fun a b => a.run_id ≠ b.run_id
    rw [List.pairwise_map]
    exact h.1.imp fun hab => by simpa [hid] using hab
  · intro r hr
    obtain ⟨r0, hr0, rfl⟩ := List.mem_map.mp hr
    rw [hid]
    exact h.2 r0 hr0

theorem WF_mark (db : Db) (rid : Nat) (now : String) (h : db.WF) :
    (mark_run_started db rid now).WF :=
  WF_map_op db (startRunRow rid now) db.files (startRunRow_run_id rid now) h

theorem WF_progress (db : Db) (rid tf te : Nat) (h : db.WF) :
    (update_run_progress db rid tf te).WF :=
  WF_map_op db (progressRunRow rid tf te) db.files (progressRunRow_run_id rid tf te) h

theorem WF_finalize (db : Db) (rid tf te : Nat) (dur : Option Nat) (st : String)
    (msg : Option String) (now : String) (h : db.WF) :
    (finalize_run db rid tf te dur st msg now).WF :=
  WF_map_op db (finishRunRow rid tf te dur st msg now) db.files
    (finishRunRow_run_id rid tf te dur st msg now) h

theorem WF_insert (db : Db) (rid : Nat) (rows : List InRow) (h : db.WF) :
    (insert_file_batch db rid rows).WF := by
  constructor
  · rw [insert_file_batch_runs]
    exact h.1
  · rw [insert_file_batch_runs]
    intro r hr
    rw [insert_file_batch_next]
    exact h.2 r hr

theorem WF_prep (db : Db) (root now : String) (h : db.WF) :
    (prepare_run db root now).2.WF := by
  cases hf : db.runs.find? (fun r => r.root_path == root) with
  | some row =>
      have h1 : prepare_run db root now =
          (row.run_id,
            { db with
              runs := db.runs.map (resetRun row.run_id now)
              files := db.files.filter fun f => f.run_id != row.run_id }) := by
        rw [prepare_run, hf]
      rw [h1]
      exact WF_map_op db (resetRun row.run_id now) _ (resetRun_run_id row.run_id now) h
  | none =>
      have h1 : prepare_run db root now =
          (db.next_run_id,
            { db with
              runs := db.runs ++ [newRun db.next_run_id root now]
              next_run_id := db.next_run_id + 1 }) := by
        rw [prepare_run, hf]
      rw [h1]
      constructor
      · show (db.runs ++ [newRun db.next_run_id root now]).Pairwise
          fun a b => a.run_id ≠ b.run_id
        rw [List.pairwise_append]
        refine ⟨h.1, List.pairwise_singleton _ _, ?_⟩
        intro a ha b hb
        rw [List.mem_singleton.mp hb]
        exact Nat.ne_of_lt (h.2 a ha)
      · intro r hr
        rcases List.mem_append.mp hr with h' | h'
        · exact Nat.lt_succ_of_lt (h.2 r h')
        · rw [List.mem_singleton.mp h']
          exact Nat.lt_succ_self _

theorem primOK_of_map (db : Db) (p : Prim) (f : RunRow → RunRow)
    (hruns : (applyPrim db p).runs = db.runs.map f)
    (hid : ∀ r, (f r).run_id = r.run_id) (hWF : db.WF)
    (h : ∀ r ∈ db.runs, primAllowed p r.status (f r).status) : primOK db p := by
  intro r hr r' hr' hid2
  rw [hruns] at hr'
  obtain ⟨r0, hr0, rfl⟩ := List.mem_map.mp hr'
  rw [hid] at hid2
  rw [wf_id_inj hWF r hr r0 hr0 hid2]
  exact h r0 hr0

theorem primOK_prep (db : Db) (root now : String) (hWF : db.WF) :
    primOK db (.prep root now) := by
  cases hf : db.runs.find? (fun r => r.root_path == root) with
  | some row =>
      apply primOK_of_map db _ (resetRun row.run_id now) ?_ (resetRun_run_id row.run_id now)
        hWF ?_
      · show (prepare_run db root now).2.runs = db.runs.map (resetRun row.run_id now)
        rw [prepare_run, hf]
      · intro r _
        show r.status = (resetRun row.run_id now r).status ∨
          (resetRun row.run_id now r).status = "queued"
        by_cases hc : r.run_id == row.run_id
        · right; simp [resetRun, hc]
        · left; simp [resetRun, hc]
  | none =>
      intro r hr r' hr' hid2
      have hruns : (applyPrim db (Prim.prep root now)).runs =
          db.runs ++ [newRun db.next_run_id root now] := by
        show (prepare_run db root now).2.runs = _
        rw [prepare_run, hf]
      rw [hruns] at hr'
      rcases List.mem_append.mp hr' with h' | h'
      · exact Or.inl (by rw [wf_id_inj hWF r hr r' h' hid2])
      · rw [List.mem_singleton.mp h']
        exact Or.inr rfl

theorem primOK_markStarted (db : Db) (rid : Nat) (now : String) (hWF : db.WF)
    (hq : ∀ r ∈ db.runs, r.run_id = rid → r.status = "queued") :
    primOK db (.markStarted rid now) := by
  apply primOK_of_map db (.markStarted rid now) (startRunRow rid now) rfl
    (startRunRow_run_id rid now) hWF
  intro r hr
  show forwardStep r.status (startRunRow rid now r).status
  by_cases hc : r.run_id == rid
  · have h1 : r.status = "queued" := hq r hr (by simpa using hc)
    have h2 : (startRunRow rid now r).status = "running" := by simp [startRunRow, hc]
    rw [h1, h2]
    exact Or.inr (Or.inl ⟨rfl, rfl⟩)
  · have h2 : startRunRow rid now r = r := by simp [startRunRow, hc]
    rw [h2]
    exact Or.inl rfl

theorem primOK_progress (db : Db) (rid tf te : Nat) (hWF : db.WF) :
    primOK db (.progress rid tf te) := by
  apply primOK_of_map db (.progress rid tf te) (progressRunRow rid tf te) rfl
    (progressRunRow_run_id rid tf te) hWF
  intro r _
  show forwardStep r.status (progressRunRow rid tf te r).status
  rw [progressRunRow_status]
  exact Or.inl rfl

theorem primOK_insert (db : Db) (rid : Nat) (rows : List InRow) (hWF : db.WF) :
    primOK db (.insertBatch rid rows) := by
  apply primOK_of_map db _ id ?_ (fun r => rfl) hWF ?_
  · show (insert_file_batch db rid rows).runs = db.runs.map id
    rw [insert_file_batch_runs, List.map_id]
  · intro r _
    exact Or.inl rfl

theorem primOK_finalize (db : Db) (rid tf te : Nat) (dur : Option Nat) (st : String)
    (msg : Option String) (now : String) (hWF : db.WF)
    (hrun : ∀ r ∈ db.runs, r.run_id = rid → r.status = "running")
    (hst : st = "completed" ∨ st = "failed") :
    primOK db (.finalize rid tf te dur st msg now) := by
  apply primOK_of_map db (.finalize rid tf te dur st msg now)
    (finishRunRow rid tf te dur st msg now) rfl
    (finishRunRow_run_id rid tf te dur st msg now) hWF
  intro r hr
  show forwardStep r.status (finishRunRow rid tf te dur st msg now r).status
  by_cases hc : r.run_id == rid
  · have h1 : r.status = "running" := hrun r hr (by simpa using hc)
    have h2 : (finishRunRow rid tf te dur st msg now r).status = st := by
      simp [finishRunRow, hc]
    rw [h1, h2]
    exact Or.inr (Or.inr ⟨rfl, hst⟩)
  · have h2 : finishRunRow rid tf te dur st msg now r = r := by simp [finishRunRow, hc]
    rw [h2]
    exact Or.inl rfl

theorem mark_started_status (db : Db) (rid : Nat) (now : String) :
    ∀ r ∈ (mark_run_started db rid now).runs, r.run_id = rid → r.status = "running" := by
  intro r hr hid
  obtain ⟨r0, _, rfl⟩ := List.mem_map.mp hr
  rw [startRunRow_run_id] at hid
  simp [startRunRow, hid]

theorem mid_preserves_running (p : Prim) (hmid : MidPrim p) (db : Db) (rid : Nat)
    (h : ∀ r ∈ db.runs, r.run_id = rid → r.status = "running") :
    ∀ r ∈ (applyPrim db p).runs, r.run_id = rid → r.status = "running" := by
  rcases hmid with ⟨a, b, rfl⟩ | ⟨a, b, c, rfl⟩
  · intro r hr hid
    rw [show (applyPrim db (Prim.insertBatch a b)).runs = db.runs from
      insert_file_batch_runs b db a] at hr
    exact h r hr hid
  · intro r hr hid
    obtain ⟨r0, hr0, rfl⟩ := List.mem_map.mp hr
    rw [progressRunRow_run_id] at hid
    rw [progressRunRow_status]
    exact h r0 hr0 hid

theorem mid_preserves_WF (p : Prim) (hmid : MidPrim p) (db : Db) (h : db.WF) :
    (applyPrim db p).WF := by
  rcases hmid with ⟨a, b, rfl⟩ | ⟨a, b, c, rfl⟩
  · exact WF_insert db a b h
  · exact WF_progress db a b c h

theorem mid_primOK (p : Prim) (hmid : MidPrim p) (db : Db) (hWF : db.WF) : primOK db p := by
  rcases hmid with ⟨a, b, rfl⟩ | ⟨a, b, c, rfl⟩
  · exact primOK_insert db a b hWF
  · exact primOK_progress db a b c hWF

theorem seqOK_append : ∀ (ps qs : List Prim) (db : Db),
    SeqOK db (ps ++ qs) ↔ SeqOK db ps ∧ SeqOK (applyPrims db ps) qs := by
  intro ps
  induction ps with
  | nil =>
      intro qs db
      show SeqOK db qs ↔ True ∧ SeqOK db qs
      rw [true_and]
  | cons p ps ih =>
      intro qs db
      show primOK db p ∧ SeqOK (applyPrim db p) (ps ++ qs) ↔
        (primOK db p ∧ SeqOK (applyPrim db p) ps) ∧
          SeqOK (applyPrims (applyPrim db p) ps) qs
      rw [ih, and_assoc]

theorem seqOK_mids (rid : Nat) : ∀ (ps : List Prim), (∀ p ∈ ps, MidPrim p) →
    ∀ db : Db, db.WF → (∀ r ∈ db.runs, r.run_id = rid → r.status = "running") →
    SeqOK db ps ∧ (applyPrims db ps).WF ∧
      (∀ r ∈ (applyPrims db ps).runs, r.run_id = rid → r.status = "running") := by
  intro ps
  induction ps with
  | nil => intro _ db hWF hrun; exact ⟨trivial, hWF, hrun⟩
  | cons p ps ih =>
      intro hmid db hWF hrun
      have hm := hmid p (List.mem_cons_self p ps)
      have hm' : ∀ q ∈ ps, MidPrim q := fun q hq => hmid q (List.mem_cons_of_mem p hq)
      obtain ⟨hs, hw, hr⟩ := ih hm' (applyPrim db p) (mid_preserves_WF p hm db hWF)
        (mid_preserves_running p hm db rid hrun)
      exact ⟨⟨mid_primOK p hm db hWF, hs⟩, hw, hr⟩

theorem crawlSteps_prims_mid (root : String) (rid bs : Nat) :
    ∀ (evs : List WalkEvent) (acc : CrawlAcc),
      ∀ p ∈ (crawlSteps root rid bs acc evs).1, MidPrim p := by
  intro evs
  induction evs with
  | nil => intro acc p hp; simp [crawlSteps] at hp
  | cons e evs ih =>
      intro acc p hp
      cases e with
      | fault m => simp [crawlSteps] at hp
      | file segs node =>
          cases hs : node.statOk with
          | true =>
              by_cases hb : bs ≤ (acc.batch ++ [rowOf root segs node]).length
              · rw [crawlSteps_cons_ok_flush root rid bs acc segs node evs hs hb] at hp
                rcases List.mem_cons.mp hp with rfl | hp
                · exact Or.inl ⟨_, _, rfl⟩
                rcases List.mem_cons.mp hp with rfl | hp
                · exact Or.inr ⟨_, _, _, rfl⟩
                exact ih _ p hp
              · rw [crawlSteps_cons_ok_batch root rid bs acc segs node evs hs hb] at hp
                exact ih _ p hp
          | false =>
              rw [crawlSteps_cons_bad root rid bs acc segs node evs hs] at hp
              exact ih _ p hp

theorem index_prims_shape (root : String) (rid bs : Nat) (evs : List WalkEvent)
    (dur : Option Nat) (now : String) :
    ∃ (core : List Prim) (tf te : Nat) (st : String) (msg : Option String),
      (index_prims root rid bs evs dur now).1 =
        Prim.markStarted rid now :: core ++ [Prim.finalize rid tf te dur st msg now] ∧
      (∀ p ∈ core, MidPrim p) ∧ (st = "completed" ∨ st = "failed") := by
  cases hf : (crawlSteps root rid bs ⟨[], 0, 0⟩ evs).2.2 with
  | some msg =>
      refine ⟨(crawlSteps root rid bs ⟨[], 0, 0⟩ evs).1,
        (crawlSteps root rid bs ⟨[], 0, 0⟩ evs).2.1.total_files,
        (crawlSteps root rid bs ⟨[], 0, 0⟩ evs).2.1.error_count + 1, "failed", some msg,
        ?_, ?_, Or.inr rfl⟩
      · rw [index_prims_fault_shape root rid bs evs dur now msg hf]
      · exact crawlSteps_prims_mid root rid bs evs _
  | none =>
      refine ⟨(crawlSteps root rid bs ⟨[], 0, 0⟩ evs).1 ++
        (if (crawlSteps root rid bs ⟨[], 0, 0⟩ evs).2.1.batch.isEmpty then []
         else [Prim.insertBatch rid (crawlSteps root rid bs ⟨[], 0, 0⟩ evs).2.1.batch,
           Prim.progress rid ((crawlSteps root rid bs ⟨[], 0, 0⟩ evs).2.1.total_files +
             (crawlSteps root rid bs ⟨[], 0, 0⟩ evs).2.1.batch.length)
             (crawlSteps root rid bs ⟨[], 0, 0⟩ evs).2.1.error_count]),
        (crawlSteps root rid bs ⟨[], 0, 0⟩ evs).2.1.total_files +
          (crawlSteps root rid bs ⟨[], 0, 0⟩ evs).2.1.batch.length,
        (crawlSteps root rid bs ⟨[], 0, 0⟩ evs).2.1.error_count,
        "completed", none, ?_, ?_, Or.inl rfl⟩
      · rw [index_prims_no_fault_shape root rid bs evs dur now hf]
        simp [List.append_assoc]
      · intro p hp
        rcases List.mem_append.mp hp with h | h
        · exact crawlSteps_prims_mid root rid bs evs _ p h
        · by_cases hbe : (crawlSteps root rid bs ⟨[], 0, 0⟩ evs).2.1.batch.isEmpty
          · rw [if_pos hbe] at h
            simp at h
          · rw [if_neg hbe] at h
            rcases List.mem_cons.mp h with rfl | h
            · exact Or.inl ⟨_, _, rfl⟩
            rcases List.mem_cons.mp h with rfl | h
            · exact Or.inr ⟨_, _, _, rfl⟩
            simp at h

theorem scan_ok (db : Db) (op : ScanOp) (hWF : db.WF) :
    SeqOK db (scan_prims db op) ∧ (scan_apply db op).WF := by
  have hprep : primOK db (.prep op.root op.now) := primOK_prep db op.root op.now hWF
  have hWF1 : (prepare_run db op.root op.now).2.WF := WF_prep db op.root op.now hWF
  have hq1 := prepare_run_status db op.root op.now hWF
  by_cases hvalid : op.valid
  · obtain ⟨core, tf, te, st, msg, hshape, hmid, hst⟩ :=
      index_prims_shape op.root (prepare_run db op.root op.now).1 op.bs op.events op.dur
        op.now
    have htail : scan_prims db op = Prim.prep op.root op.now ::
        (index_prims op.root (prepare_run db op.root op.now).1 op.bs op.events op.dur
          op.now).1 := by
      simp [scan_prims, hvalid]
    have hWF2 : (applyPrim (prepare_run db op.root op.now).2
        (Prim.markStarted (prepare_run db op.root op.now).1 op.now)).WF :=
      WF_mark _ _ _ hWF1
    have hrun2 := mark_started_status (prepare_run db op.root op.now).2
      (prepare_run db op.root op.now).1 op.now
    obtain ⟨hsc, hWF3, hrun3⟩ := seqOK_mids (prepare_run db op.root op.now).1 core hmid _
      hWF2 hrun2
    constructor
    · rw [htail, hshape]
      refine ⟨hprep, primOK_markStarted _ _ op.now hWF1 hq1, ?_⟩
      exact (seqOK_append core _ _).mpr
        ⟨hsc, primOK_finalize _ _ tf te op.dur st msg op.now hWF3 hrun3 hst, trivial⟩
    · show (applyPrims db (scan_prims db op)).WF
      rw [htail, hshape]
      show (applyPrims (applyPrim db (Prim.prep op.root op.now))
        (Prim.markStarted (prepare_run db op.root op.now).1 op.now :: core ++
          [Prim.finalize (prepare_run db op.root op.now).1 tf te op.dur st msg op.now])).WF
      show (applyPrims (applyPrim (applyPrim db (Prim.prep op.root op.now))
        (Prim.markStarted (prepare_run db op.root op.now).1 op.now)) (core ++
          [Prim.finalize (prepare_run db op.root op.now).1 tf te op.dur st msg op.now])).WF
      rw [applyPrims_append]
      exact WF_finalize _ _ tf te op.dur st msg op.now hWF3
  · have htail : scan_prims db op = [Prim.prep op.root op.now] := by
      simp [scan_prims, hvalid]
    constructor
    · rw [htail]
      exact ⟨hprep, trivial⟩
    · show (applyPrims db (scan_prims db op)).WF
      rw [htail]
      exact hWF1

/-- Claim C8, counterexample to the as-stated claim: the status
state-machine invariant does not hold for arbitrary sequences of store and
crawler operations.  The queued-window double start — reachable because
`start`'s guard ignores a `queued` job, as the second conjunct shows at a
concrete state — serializes to `prep, prep, crawl-tail, crawl-tail` on one
run id, and there the second crawl's `mark_run_started` moves the already
`completed` run back to `running`, a transition the claim forbids
(`¬ SeqOK`). -/
theorem run_status_forward_counterexample :
    startBlocked queuedSched = false ∧
    (start queuedSched queuedDb "/data" "t1" 2).isError = false ∧
    ¬ SeqOK emptyDb doubleStartPrims := by
  decide

/-- Claim C8, amended: along any sequence of non-overlapping scans — each
`prepare_run` of a `start` followed by that crawl's complete transaction
sequence before the next scan begins — every store transaction moves every
run row's durable status only forward along
`queued → running → {completed, failed}` (or leaves it unchanged), except
that a `prepare_run` transaction may additionally reset a status back to
`queued`; in particular no transaction ever moves a run from `queued`
directly to `failed` or `completed`.  The restriction to non-overlapping
scans is forced by the counterexample: the queued-window double start
(the C1 guard slip) interleaves two crawls on one run id and drives a
`completed` run back to `running`. -/
theorem run_status_forward (ops : List ScanOp) : ∀ db : Db, db.WF →
    SeqOK db (seq_prims db ops) := by
  induction ops with
  | nil => intro db _; trivial
  | cons op ops ih =>
      intro db hWF
      have h1 := scan_ok db op hWF
      show SeqOK db (scan_prims db op ++ seq_prims (scan_apply db op) ops)
      exact (seqOK_append _ _ _).mpr ⟨h1.1, ih (scan_apply db op) h1.2⟩

/-- Witness for C8: the transaction trace of three concrete scans (a
successful one, a faulted one, and one with an invalid root) from the
empty database respects the state machine. -/
theorem run_status_forward_witness :
    SeqOK emptyDb (seq_prims emptyDb [scanOpA, scanOpB, scanOpC]) :=
  run_status_forward [scanOpA, scanOpB, scanOpC] emptyDb (by decide)

end Audit
